import Mathlib

/-!
# monster-avengers: catalog, tokenizer and command entry point

A shallow embedding of the catalog data model and of the operations of
`DataSet` (`monster_hunter_data.h`), of the tokenizer and the object reader
(`lisp/parser.h`) and of `main` (`core/find_armor.cc`), followed by theorems
about them. The search engine itself is not among the sources; the part of
it that a theorem needs is modelled from the spec, in the namespace `Spec`.

Conventions of the embedding

* `std::wstring` is `String`, `int` is `Int`, container sizes and indices
  are `Nat`, `std::vector<T>` is `List T`.
* The process-wide table `skill_name_to_id` is passed explicitly as a
  `SkillTable`.
* Each constructor that reads from a tokenizer is embedded from the point
  where its keyword loop has finished: its input is the record of the
  values the loop stored, its body is the code that follows the loop.
* `CHECK(cond)` aborts the process when `cond` is false; so does `exit`.
  Both are an `Except.error`.
* `std::isspace`, `std::isdigit` and `std::iswspace` are fixed on the basic
  character set only (codes below 128); what they return on any other
  character is the parameter `CharClass` of the tokenizer.
-/

namespace MonsterAvengers

/-! ## Data model -/

/-- Struct `Skill`: one level of a skill system. -/
structure Skill where
  points : Int
  name : String
  description : String
deriving DecidableEq, Repr

/-- Struct `SkillSystem`: a named dimension along which points accumulate. -/
structure SkillSystem where
  name : String
  skills : List Skill
deriving DecidableEq, Repr

/-- Struct `Effect`: `(skill_id, points)`; `skill_id` is `-1` when unresolved. -/
structure Effect where
  skill_id : Int
  points : Int
deriving DecidableEq, Repr

/-- Struct `Jewel`. -/
structure Jewel where
  name : String
  holes : Int
  effects : List Effect
deriving DecidableEq, Repr

/-- Enum `WeaponType`. -/
inductive WeaponType where
  | MELEE
  | RANGE
  | BOTH
deriving DecidableEq, Repr

/-- Enum `ArmorPart` (without the counter `PART_NUM`). -/
inductive ArmorPart where
  | HEAD
  | BODY
  | HANDS
  | WAIST
  | FEET
  | GEAR
  | AMULET
deriving DecidableEq, Repr

/-- Struct `Armor`. -/
structure Armor where
  name : String
  part : ArmorPart
  type : WeaponType
  rare : Int
  defense : Int
  holes : Int
  effects : List Effect
  material : List String
  multiplied : Bool
  base : Int
  jewels : List (Int × Int)
deriving DecidableEq, Repr

/-! ## The skill-name table -/

/-- The global `std::map<std::wstring, int> skill_name_to_id`, as a list of
bindings with at most one binding per key. -/
abbrev SkillTable := List (String × Int)

/-- Operation `map[key] = value` of `std::map`: overwrite the binding of
`key` or create it. -/
def SkillTable.assign (key : String) (value : Int) : SkillTable → SkillTable
  | [] => [(key, value)]
  | (k, v) :: rest =>
    if k = key then (key, value) :: rest else (k, v) :: SkillTable.assign key value rest

/-- Operation `map.find(key)` of `std::map`; `none` stands for `end()`. -/
def SkillTable.find (key : String) : SkillTable → Option Int
  | [] => none
  | (k, v) :: rest => if k = key then some v else SkillTable.find key rest

/-- The loop of `UpdateSkillSystemLookUp`, from index `i` on. -/
def UpdateSkillSystemLookUp.loop : List SkillSystem → Nat → SkillTable → SkillTable
  | [], _, table => table
  | s :: rest, i, table =>
    UpdateSkillSystemLookUp.loop rest (i + 1) (SkillTable.assign s.name (i : Int) table)

/-- Function `UpdateSkillSystemLookUp(systems)`: clear the table, then bind
`systems[i].name` to `i` for `i = 0, 1, ...`. -/
def UpdateSkillSystemLookUp (systems : List SkillSystem) : SkillTable :=
  UpdateSkillSystemLookUp.loop systems 0 []

/-- Function `LookUpSkillSystem(name)`: the bound id, `-1` when there is none.
(The error log on an empty table does not change the result.) -/
def LookUpSkillSystem (table : SkillTable) (name : String) : Int :=
  match SkillTable.find name table with
  | some id => id
  | none => -1

/-! ## Library algorithms used by the constructors -/

/-- The scan of `std::remove_if`, on the elements not yet visited. `kept` is
the range before the write position, `holes` is the range between the write
position and the read position: the slots whose content is to be dropped
(an element on which `pred` holds, still in place, or the remains `mv x` of
an element `x` that was moved forward). A kept element is moved into the
first hole; while there is no hole it stays where it is. -/
def remove_if.scan {α : Type} (mv : α → α) (pred : α → Bool) :
    List α → List α → List α → List α × Nat
  | [], kept, holes => (kept ++ holes, kept.length)
  | x :: rest, kept, holes =>
    if pred x then remove_if.scan mv pred rest kept (holes ++ [x])
    else
      match holes with
      | [] => remove_if.scan mv pred rest (kept ++ [x]) []
      | _ :: hs => remove_if.scan mv pred rest (kept ++ [x]) (hs ++ [mv x])

/-- Algorithm `std::remove_if(v.begin(), v.end(), pred)`: the vector after the
call (same size) and the position of the returned iterator. `mv x` is what
a move assignment leaves behind in the element `x` it moves from. -/
def remove_if {α : Type} (mv : α → α) (pred : α → Bool) (v : List α) : List α × Nat :=
  remove_if.scan mv pred v [] []

/-- The loop `for (int i = 0; i < v.end() - it; ++i) v.pop_back();` that
follows both calls of `std::remove_if`, from counter `i` on. The bound is
evaluated again on every round, as in the source. The first argument bounds
the number of rounds. -/
def popLoop {α : Type} : Nat → List α → Nat → Nat → List α
  | 0, v, _, _ => v
  | fuel + 1, v, it, i =>
    if (i : Int) < (v.length : Int) - (it : Int) then popLoop fuel v.dropLast it (i + 1)
    else v

/-- The idiom `it = std::remove_if(...); for (...) v.pop_back();` as a whole.
Every round pops an element, so `v.length` rounds are enough. -/
def removeAndPop {α : Type} (mv : α → α) (pred : α → Bool) (v : List α) : List α :=
  let r := remove_if mv pred v
  popLoop r.1.length r.1 r.2 0

/-! ## Constructors -/

/-- What the keyword loop of `Effect::Effect` has read: the value after
`:SKILL-NAME` (when the keyword occurred) and the value of `points`. -/
structure EffectFields where
  skill_name : Option String
  points : Int
deriving DecidableEq, Repr

/-- Constructor `Effect::Effect(tokenizer)`: `skill_id` starts as `-1` and is
set to `LookUpSkillSystem(skill_name)` on `:SKILL-NAME`. -/
def Effect.construct (table : SkillTable) (f : EffectFields) : Effect :=
  { skill_id :=
      match f.skill_name with
      | some skill_name => LookUpSkillSystem table skill_name
      | none => -1
    points := f.points }

/-- What the keyword loop of `Jewel::Jewel` has read. -/
structure JewelFields where
  name : String
  holes : Int
  effects : List EffectFields
deriving DecidableEq, Repr

/-- Constructor `Jewel::Jewel(tokenizer)`: the effects are parsed one by one,
then those with `skill_id == -1` are removed with `std::remove_if` and the
pop loop. `Effect` is two ints, a move leaves the source as it is. -/
def Jewel.construct (table : SkillTable) (f : JewelFields) : Jewel :=
  { name := f.name
    holes := f.holes
    effects :=
      removeAndPop id (fun effect => decide (-1 = effect.skill_id))
        (f.effects.map (Effect.construct table)) }

/-- Function `Armor::Amulet(holes, effects)`. -/
def Armor.Amulet (holes : Int) (effects : List Effect) : Armor :=
  { name := "Amulet"
    type := WeaponType.BOTH
    rare := 10
    defense := 0
    holes := holes
    effects := effects
    part := ArmorPart.AMULET
    multiplied := false
    base := -1
    jewels := []
    material := [] }

/-- What the keyword loop of `Armor::Armor` has read: the members it stored
(a member whose keyword did not occur holds whatever value it had; `part` is
never stored by the constructor) and the locals `skill_names`,
`skill_points` and `name_detected`. -/
structure ArmorFields where
  name : String
  name_detected : Bool
  part : ArmorPart
  type : WeaponType
  rare : Int
  defense : Int
  holes : Int
  material : List String
  skill_names : List String
  skill_points : List Int
deriving DecidableEq, Repr

/-- Errors that end the process while a `DataSet` is built. -/
inductive LoadError where
  | torsoUpNotFound
  | checkFailed
deriving DecidableEq, Repr

/-- The loop of `Armor::Armor` over `skill_names` and `skill_points` (of equal
length): `effects.emplace_back(LookUpSkillSystem(skill_names[i]), skill_points[i])`. -/
def Armor.construct.effects (table : SkillTable) : List String → List Int → List Effect
  | skill_name :: names, skill_point :: points =>
    { skill_id := LookUpSkillSystem table skill_name, points := skill_point } ::
      Armor.construct.effects table names points
  | _, _ => []

/-- Constructor `Armor::Armor(tokenizer)`, after its keyword loop. -/
def Armor.construct (table : SkillTable) (f : ArmorFields) : Except LoadError Armor :=
  if f.skill_names.length = f.skill_points.length then
    Except.ok
      { name := if f.name_detected then f.name else ""
        part := f.part
        type := f.type
        rare := f.rare
        defense := f.defense
        holes := f.holes
        effects := Armor.construct.effects table f.skill_names f.skill_points
        material := f.material
        multiplied := false
        base := -1
        jewels := [] }
  else Except.error LoadError.checkFailed

/-- Template `ParseList<Armor>::Do`: the armors are constructed in file order;
a failed `CHECK` in one of them ends the process. -/
def ParseList.armors (table : SkillTable) : List ArmorFields → Except LoadError (List Armor)
  | [] => Except.ok []
  | f :: rest =>
    match Armor.construct table f with
    | Except.error e => Except.error e
    | Except.ok armor =>
      match ParseList.armors table rest with
      | Except.error e => Except.error e
      | Except.ok armors => Except.ok (armor :: armors)

/-! ## Class `DataSet` -/

/-- Class `DataSet`: its public member `torso_up_id` and its private members.
The vector `armor_indices_by_parts_` has one entry per `ArmorPart`. -/
structure DataSet where
  torso_up_id : Int
  skill_systems_ : List SkillSystem
  jewels_ : List Jewel
  armors_ : List Armor
  reserved_armor_count_ : Nat
  armor_indices_by_parts_ : ArmorPart → List Nat

/-- The files of the data folder, as read by the keyword loops. -/
structure DataFolder where
  skills : List SkillSystem
  jewels : List JewelFields
  helms : List ArmorFields
  cuirasses : List ArmorFields
  gloves : List ArmorFields
  cuisses : List ArmorFields
  sabatons : List ArmorFields
  gears : List ArmorFields

/-- The search for the torso-up id in `DataSet::DataSet`, from system `id` on
with the current value of `torso_up_id`. The inner loop sets `torso_up_id`
to `id` at the first skill with `points == 0`; the outer loop stops when
`torso_up_id > 0`. -/
def DataSet.torsoUpSearch : List SkillSystem → Nat → Int → Int
  | [], _, torso_up_id => torso_up_id
  | system :: rest, id, torso_up_id =>
    let found : Int :=
      if system.skills.any (fun skill => decide (0 = skill.points)) then (id : Int)
      else torso_up_id
    if found > 0 then found else DataSet.torsoUpSearch rest (id + 1) found

namespace DataSet

/-- Accessor `DataSet::armors()`. -/
def armors (ds : DataSet) : List Armor := ds.armors_

/-- Accessor `DataSet::ArmorIds(part)`. -/
def ArmorIds (ds : DataSet) (part : ArmorPart) : List Nat := ds.armor_indices_by_parts_ part

/-- Accessor `DataSet::armor(id)`; `none` when `id` is out of range. -/
def armor (ds : DataSet) (id : Nat) : Option Armor := ds.armors_[id]?

/-- One round of the loop of `ReadArmors<Part>`: push the armor with `part`
set to `Part` (and `type` to `BOTH` for `HEAD` and `GEAR`), then push its
index `armors_.size() - 1` on the list of `Part`. -/
def ReadArmors.push (Part : ArmorPart) (ds : DataSet) (a : Armor) : DataSet :=
  let pushed : Armor :=
    { a with
      part := Part
      type := if Part = ArmorPart.HEAD ∨ Part = ArmorPart.GEAR then WeaponType.BOTH else a.type }
  let armors := ds.armors_ ++ [pushed]
  { ds with
    armors_ := armors
    armor_indices_by_parts_ := fun p =>
      if p = Part then ds.armor_indices_by_parts_ p ++ [armors.length - 1]
      else ds.armor_indices_by_parts_ p }

/-- Method `DataSet::ReadArmors<Part>(path)`: parse the list, drop the armors
without a name with `std::remove_if` and the pop loop, register the rest. -/
def ReadArmors (mv : Armor → Armor) (table : SkillTable) (Part : ArmorPart)
    (file : List ArmorFields) (ds : DataSet) : Except LoadError DataSet :=
  match ParseList.armors table file with
  | Except.error e => Except.error e
  | Except.ok parsed =>
    let armor_list := removeAndPop mv (fun a => a.name.isEmpty) parsed
    Except.ok (armor_list.foldl (ReadArmors.push Part) ds)

/-- Method `DataSet::LoadAmulet()`. -/
def LoadAmulet (ds : DataSet) : DataSet :=
  let armors := ds.armors_ ++ [Armor.Amulet 0 []]
  { ds with
    armors_ := armors
    armor_indices_by_parts_ := fun p =>
      if p = ArmorPart.AMULET then ds.armor_indices_by_parts_ p ++ [armors.length - 1]
      else ds.armor_indices_by_parts_ p }

/-- Constructor `DataSet::DataSet(data_folder)`. `mv` is the state in which a
move assignment leaves an `Armor` it moves from. -/
def load (mv : Armor → Armor) (folder : DataFolder) : Except LoadError DataSet :=
  let torso_up_id := DataSet.torsoUpSearch folder.skills 0 (-1)
  if torso_up_id < 0 then Except.error LoadError.torsoUpNotFound
  else
    let table := UpdateSkillSystemLookUp folder.skills
    let ds0 : DataSet :=
      { torso_up_id := torso_up_id
        skill_systems_ := folder.skills
        jewels_ := folder.jewels.map (Jewel.construct table)
        armors_ := []
        reserved_armor_count_ := 0
        armor_indices_by_parts_ := fun _ => [] }
    match ReadArmors mv table ArmorPart.HEAD folder.helms ds0 with
    | Except.error e => Except.error e
    | Except.ok ds1 =>
    match ReadArmors mv table ArmorPart.BODY folder.cuirasses ds1 with
    | Except.error e => Except.error e
    | Except.ok ds2 =>
    match ReadArmors mv table ArmorPart.HANDS folder.gloves ds2 with
    | Except.error e => Except.error e
    | Except.ok ds3 =>
    match ReadArmors mv table ArmorPart.WAIST folder.cuisses ds3 with
    | Except.error e => Except.error e
    | Except.ok ds4 =>
    match ReadArmors mv table ArmorPart.FEET folder.sabatons ds4 with
    | Except.error e => Except.error e
    | Except.ok ds5 =>
    match ReadArmors mv table ArmorPart.GEAR folder.gears ds5 with
    | Except.error e => Except.error e
    | Except.ok ds6 =>
      let ds7 := LoadAmulet ds6
      Except.ok { ds7 with reserved_armor_count_ := ds7.armors_.length }

/-- Method `DataSet::ProvidesTorsoUp(int id)`; `none` when `id` is out of
range. -/
def ProvidesTorsoUp (ds : DataSet) (id : Nat) : Option Bool :=
  match ds.armors_[id]? with
  | none => none
  | some a =>
    some (decide (1 = a.effects.length) &&
      (match a.effects with
       | [] => false
       | e :: _ => decide (e.skill_id = ds.torso_up_id)))

/-- Method `DataSet::AddExtraArmor(part, armor)`. -/
def AddExtraArmor (ds : DataSet) (part : ArmorPart) (a : Armor) : DataSet :=
  { ds with
    armor_indices_by_parts_ := fun p =>
      if p = part then ds.armor_indices_by_parts_ p ++ [ds.armors_.length]
      else ds.armor_indices_by_parts_ p
    armors_ := ds.armors_ ++ [a] }

/-- The loop `while (armors_.size() > reserved_armor_count_) armors_.pop_back();`.
The first argument bounds the number of rounds. -/
def ClearExtraArmor.loop : Nat → List Armor → Nat → List Armor
  | 0, armors, _ => armors
  | fuel + 1, armors, reserved =>
    if armors.length > reserved then ClearExtraArmor.loop fuel armors.dropLast reserved
    else armors

/-- Method `DataSet::ClearExtraArmor()`. Every round pops an armor, so
`armors_.size()` rounds are enough. -/
def ClearExtraArmor (ds : DataSet) : DataSet :=
  { ds with
    armors_ := ClearExtraArmor.loop ds.armors_.length ds.armors_ ds.reserved_armor_count_ }

/-- The first loop of `EffectScore`: the number of indices
`i < reserved_armor_count_` such that `armors_[i]` has an effect on the skill
(the inner loop stops at the first one). -/
def armor_count (ds : DataSet) (effect : Effect) : Int :=
  (List.range ds.reserved_armor_count_).foldl
    (fun count i =>
      match ds.armors_[i]? with
      | none => count
      | some a =>
        if a.effects.any (fun armor_effect => decide (armor_effect.skill_id = effect.skill_id))
        then count + 1 else count)
    0

/-- The second loop of `EffectScore`, in a field `K` with an exponential
function `exp`. -/
def jewel_index {K : Type} [DivisionRing K] (exp : K → K) (ds : DataSet) (effect : Effect) : K :=
  ds.jewels_.foldl
    (fun index jewel =>
      jewel.effects.foldl
        (fun index jewel_effect =>
          if jewel_effect.skill_id = effect.skill_id then
            index + (jewel_effect.points : K) / (jewel.holes : K) *
              exp (((-jewel.holes : Int) : K) * 0.1)
          else index)
        index)
    0

/-- Method `DataSet::EffectScore(effect)`, with `double` read as a field `K`
with an exponential function `exp`. -/
def EffectScore {K : Type} [DivisionRing K] (exp : K → K) (ds : DataSet) (effect : Effect) : K :=
  exp (0.1 * jewel_index exp ds effect - 0.3 * (effect.points : K)) * (armor_count ds effect : K)

/-- A call of one of the two mutators. -/
inductive Call where
  | add (part : ArmorPart) (a : Armor)
  | clear

/-- Run one call. -/
def step (ds : DataSet) : Call → DataSet
  | Call.add part a => ds.AddExtraArmor part a
  | Call.clear => ds.ClearExtraArmor

/-- Run a sequence of calls, first to last. -/
def run (ds : DataSet) (calls : List Call) : DataSet := calls.foldl step ds

end DataSet

/-! ## Specification-side definitions -/

/-- The armor count of the scorer in the words of the spec: the number of base
armors (the first `reserved_armor_count_` entries of `armors_`) that have at
least one effect on the skill. -/
def specArmorCount (ds : DataSet) (skill : Int) : Nat :=
  (ds.armors_.take ds.reserved_armor_count_).countP
    (fun a => decide (∃ f ∈ a.effects, f.skill_id = skill))

/-- The jewel index of the scorer in the words of the spec: the sum, over every
jewel and every effect of the jewel on the skill, of
`(points / holes) * exp (-0.1 * holes)`. -/
def specJewelIndex {K : Type} [DivisionRing K] (exp : K → K) (ds : DataSet) (skill : Int) : K :=
  (ds.jewels_.map (fun j =>
    ((j.effects.filter (fun f => decide (f.skill_id = skill))).map
      (fun f => (f.points : K) / (j.holes : K) * exp (-0.1 * (j.holes : K)))).sum)).sum

/-- What every sequence of `AddExtraArmor` and `ClearExtraArmor` calls leaves
as it was in the state `ds0` it started from. -/
structure DataSet.Frame (ds0 ds : DataSet) : Prop where
  torso : ds.torso_up_id = ds0.torso_up_id
  jewels : ds.jewels_ = ds0.jewels_
  reserved : ds.reserved_armor_count_ = ds0.reserved_armor_count_
  base : ds.armors_.take ds0.reserved_armor_count_ = ds0.armors_.take ds0.reserved_armor_count_
  size : ds0.reserved_armor_count_ ≤ ds.armors_.length
  ids : ∀ p, ∃ added, ds.armor_indices_by_parts_ p = ds0.armor_indices_by_parts_ p ++ added

/-! ## Sample catalogs -/

/-- Two skill systems: torso-up (its skill has 0 points) and one other. -/
def sampleSkills : List SkillSystem :=
  [ { name := "Torso Up", skills := [{ points := 0, name := "Torso Up", description := "" }] },
    { name := "Attack", skills := [{ points := 10, name := "Attack Up", description := "" }] } ]

/-- An armor entry with a name and two parallel lists of skills and points. -/
def sampleArmorFields (name : String) (defense holes : Int) (skill_names : List String)
    (skill_points : List Int) : ArmorFields :=
  { name := name
    name_detected := true
    part := ArmorPart.HEAD
    type := WeaponType.MELEE
    rare := 1
    defense := defense
    holes := holes
    material := []
    skill_names := skill_names
    skill_points := skill_points }

/-- A data folder with one jewel, one helm and two cuirasses; the second
cuirass carries torso-up together with another skill. -/
def sampleFolder : DataFolder :=
  { skills := sampleSkills
    jewels := [{ name := "Attack Jewel", holes := 2, effects := [{ skill_name := some "Attack", points := 3 }] }]
    helms := [sampleArmorFields "Leather Helm" 5 1 ["Attack"] [2]]
    cuirasses :=
      [sampleArmorFields "Torso Vest" 7 0 ["Torso Up"] [0],
       sampleArmorFields "Mixed Plate" 9 1 ["Torso Up", "Attack"] [0, 3]]
    gloves := []
    cuisses := []
    sabatons := []
    gears := [] }

/-- The data set built if the constructor ends the process. -/
def emptyDataSet : DataSet :=
  { torso_up_id := -1
    skill_systems_ := []
    jewels_ := []
    armors_ := []
    reserved_armor_count_ := 0
    armor_indices_by_parts_ := fun _ => [] }

/-- The data set loaded from `sampleFolder`. -/
def sampleDataSet : DataSet :=
  match DataSet.load id sampleFolder with
  | Except.ok ds => ds
  | Except.error _ => emptyDataSet

/-- A synthetic piece as the search adds it to the head slot. -/
def sampleExtraArmor : Armor :=
  { name := "Torso Vest"
    part := ArmorPart.HEAD
    type := WeaponType.BOTH
    rare := 1
    defense := 7
    holes := 0
    effects := []
    material := []
    multiplied := true
    base := 1
    jewels := [] }

/-- The first cuirass of `sampleFolder` as the data set stores it. -/
def sampleTorsoVest : Armor :=
  { name := "Torso Vest"
    part := ArmorPart.BODY
    type := WeaponType.MELEE
    rare := 1
    defense := 7
    holes := 0
    effects := [{ skill_id := 0, points := 0 }]
    material := []
    multiplied := false
    base := -1
    jewels := [] }

/-- Two skill systems that both have a skill with 0 points. -/
def twoTorsoSkills : List SkillSystem :=
  [ { name := "Torso Up", skills := [{ points := 0, name := "Torso Up", description := "" }] },
    { name := "Handicraft",
      skills := [{ points := 10, name := "Sharpness +1", description := "" },
                 { points := 0, name := "Placeholder", description := "" }] } ]

/-- A data folder whose skill file is `twoTorsoSkills`, with nothing else. -/
def twoTorsoFolder : DataFolder :=
  { skills := twoTorsoSkills
    jewels := []
    helms := []
    cuirasses := []
    gloves := []
    cuisses := []
    sabatons := []
    gears := [] }

/-- A data folder whose only skill system has no skill with 0 points. -/
def noTorsoFolder : DataFolder :=
  { skills := [{ name := "Attack", skills := [{ points := 10, name := "Attack Up", description := "" }] }]
    jewels := []
    helms := []
    cuirasses := []
    gloves := []
    cuisses := []
    sabatons := []
    gears := [] }

/-- A jewel entry with two effects on skill names that no system has. -/
def unknownJewelFields : JewelFields :=
  { name := "Odd Jewel"
    holes := 1
    effects := [{ skill_name := some "Fencing", points := 1 },
                { skill_name := some "Psychic", points := 2 }] }

/-- A jewel entry with two unknown skill names followed by two known ones. -/
def mixedJewelFields : JewelFields :=
  { name := "Mixed Jewel"
    holes := 1
    effects := [{ skill_name := some "Fencing", points := 1 },
                { skill_name := some "Psychic", points := 2 },
                { skill_name := some "Attack", points := 3 },
                { skill_name := some "Torso Up", points := 4 }] }

/-- An armor entry with one known and one unknown skill name. -/
def unknownArmorFields : ArmorFields :=
  sampleArmorFields "Odd Helm" 4 0 ["Attack", "Fencing"] [2, 3]

/-! ## More of class `DataSet` -/

/-- Accessor `DataSet::armor(part, id)`: `armors_[armor_indices_by_parts_[part][id]]`;
`none` when one of the two subscripts is out of range. -/
def DataSet.armorAt (ds : DataSet) (part : ArmorPart) (id : Nat) : Option Armor :=
  match (ds.armor_indices_by_parts_ part)[id]? with
  | none => none
  | some index => ds.armors_[index]?

/-- The lists of indices group the armors by part: an index is in the list of
`p` exactly when it names an armor whose `part` is `p`, and every list is
strictly increasing. -/
structure DataSet.Grouped (armors : List Armor) (ids : ArmorPart → List Nat) : Prop where
  mem : ∀ p i, i ∈ ids p ↔ ∃ a, armors[i]? = some a ∧ a.part = p
  increasing : ∀ p, (ids p).Pairwise (fun i j => i < j)

/-- An armor entry without the keyword `:NAME`. -/
def namelessArmorFields (defense : Int) : ArmorFields :=
  { name := ""
    name_detected := false
    part := ArmorPart.HEAD
    type := WeaponType.MELEE
    rare := 1
    defense := defense
    holes := 0
    material := []
    skill_names := []
    skill_points := [] }

/-- A data folder whose helm file has two entries without a name and nothing
else. -/
def namelessFolder : DataFolder :=
  { skills := sampleSkills
    jewels := []
    helms := [namelessArmorFields 1, namelessArmorFields 2]
    cuirasses := []
    gloves := []
    cuisses := []
    sabatons := []
    gears := [] }

/-! ## The tokenizer (`lisp/parser.h`)

The input stream is the list of the characters not yet read into `buffer_`.
A loop that calls `GetChar` is a recursion on that list; where the stream is
empty the call fails, `GetChar` sets `end_of_file_` and stores a blank in
`buffer_`, and the round is written out with these values. -/

/-- Enum `TokenName`. -/
inductive TokenName where
  | OPEN_PARENTHESIS
  | CLOSE_PARENTHESIS
  | KEYWORD
  | STRING
  | TRUE
  | NUMBER
  | NIL
  | INVALID_TOKEN
  | NUMBER_OF_TOKEN
deriving DecidableEq, Repr

/-- Struct `Token`. -/
structure Token where
  name : TokenName
  value : String
deriving DecidableEq, Repr

/-- What ends the process inside the parser: a failed `CHECK`, or one of the
two exceptions of `std::stoi`, which nothing catches. -/
inductive Abort where
  | checkFailed
  | invalid_argument
  | out_of_range
deriving DecidableEq, Repr

/-- The blanks of the basic character set: blank, `\t`, `\n`, `\v`, `\f`, `\r`. -/
def basicSpace (c : Char) : Bool :=
  c = ' ' || c = '\t' || c = '\n' || c = '\x0b' || c = '\x0c' || c = '\r'

/-- The ten decimal digits. -/
def basicDigit (c : Char) : Bool :=
  decide ('0'.toNat ≤ c.toNat) && decide (c.toNat ≤ '9'.toNat)

/-- What the classification functions of the library return on a character
outside the basic character set (a code from 128 on). The tokenizer calls the
one-argument `std::isspace` and `std::isdigit` on a `wchar_t`: up to 255 the
result depends on the locale, above 255 the call is not defined and returns
whatever the implementation finds there (a character such as U+01FF may come
out as a blank). `std::iswspace`, which `std::stoi` uses, depends on the
locale. Nothing is assumed about the three functions: whatever reads a
character takes a `CharClass`, and a theorem holds for every one. -/
structure CharClass where
  isspace : Char → Bool
  isdigit : Char → Bool
  iswspace : Char → Bool

/-- Function `std::isspace(buffer_)` as the tokenizer calls it: the blanks of
the basic character set, and `cls.isspace` outside it. -/
def isspace (cls : CharClass) (c : Char) : Bool :=
  if c.toNat < 128 then basicSpace c else cls.isspace c

/-- Function `std::isdigit(buffer_)` as the tokenizer calls it: the decimal
digits of the basic character set, and `cls.isdigit` outside it. -/
def isdigit (cls : CharClass) (c : Char) : Bool :=
  if c.toNat < 128 then basicDigit c else cls.isdigit c

/-- Function `std::iswspace` as `std::stoi` calls it: the blanks of the basic
character set, and `cls.iswspace` outside it. -/
def iswspace (cls : CharClass) (c : Char) : Bool :=
  if c.toNat < 128 then basicSpace c else cls.iswspace c

/-- Class `Tokenizer`: the characters of `input_stream_` that were not yet
read, `buffer_` and `end_of_file_`. -/
structure Tokenizer where
  input_stream_ : List Char
  buffer_ : Char
  end_of_file_ : Bool
deriving DecidableEq, Repr

namespace Tokenizer

/-- Method `Tokenizer::GetChar()`: read the next character into `buffer_`; when
there is none, set `end_of_file_` and store a blank. -/
def GetChar (t : Tokenizer) : Tokenizer :=
  match t.input_stream_ with
  | c :: rest => { t with input_stream_ := rest, buffer_ := c }
  | [] => { t with end_of_file_ := true, buffer_ := ' ' }

/-- Function `Tokenizer::FromText(text)`: the private constructor starts with an
empty `buffer_` and calls `GetChar()` once. -/
def FromText (text : List Char) : Tokenizer :=
  GetChar { input_stream_ := text, buffer_ := '\x00', end_of_file_ := false }

/-- The characters that are still to be tokenized: `buffer_` and the rest of
the stream, nothing once `end_of_file_` is set. -/
def unread (t : Tokenizer) : List Char :=
  if t.end_of_file_ then [] else t.buffer_ :: t.input_stream_

/-- The loop `while (!end_of_file_ && std::isspace(buffer_)) GetChar();` of
`Next`, on the stream, `buffer_` and `end_of_file_`. -/
def skipSpaces.loop (cls : CharClass) : List Char → Char → Bool → Tokenizer
  | stream, buffer, eof =>
    if !eof && isspace cls buffer then
      match stream with
      | c :: rest => skipSpaces.loop cls rest c eof
      | [] => { input_stream_ := [], buffer_ := ' ', end_of_file_ := true }
    else { input_stream_ := stream, buffer_ := buffer, end_of_file_ := eof }

/-- The first line of `Next`. -/
def skipSpaces (cls : CharClass) (t : Tokenizer) : Tokenizer :=
  skipSpaces.loop cls t.input_stream_ t.buffer_ t.end_of_file_

/-- The loop `while (!std::isspace(GetChar())) result->value += buffer_;` of
`Read<KEYWORD>`, on the stream, `end_of_file_` and the value read so far. -/
def Read.KEYWORD.loop (cls : CharClass) : List Char → Bool → String → Tokenizer × String
  | c :: rest, eof, value =>
    if !isspace cls c then Read.KEYWORD.loop cls rest eof (value.push c)
    else ({ input_stream_ := rest, buffer_ := c, end_of_file_ := eof }, value)
  | [], _, value => ({ input_stream_ := [], buffer_ := ' ', end_of_file_ := true }, value)

/-- The loop `while (!end_of_file_) ...` of `Read<STRING>`, on the stream,
`buffer_`, `end_of_file_`, `escape` and the value read so far. A round reads
a character; it leaves the loop on a double quote that is not escaped, sets
`escape` on a backslash, and otherwise clears `escape` and appends the
character, a `|` in the place of a double quote. -/
def Read.STRING.loop : List Char → Char → Bool → Bool → String → Tokenizer × String
  | stream, buffer, eof, escape, value =>
    if eof then ({ input_stream_ := stream, buffer_ := buffer, end_of_file_ := eof }, value)
    else
      match stream with
      | c :: rest =>
        if c = '"' && !escape then
          ({ input_stream_ := rest, buffer_ := c, end_of_file_ := false }, value)
        else if c = '\\' then Read.STRING.loop rest c false true value
        else Read.STRING.loop rest c false false (if c = '"' then value.push '|' else value.push c)
      | [] => ({ input_stream_ := [], buffer_ := ' ', end_of_file_ := true }, value.push ' ')

/-- The loop `do { result->value += buffer_; GetChar(); } while (std::isdigit(buffer_));`
of `Read<NUMBER>`, on the stream, `buffer_`, `end_of_file_` and the value read
so far. -/
def Read.NUMBER.loop (cls : CharClass) :
    List Char → Char → Bool → String → Tokenizer × String
  | c :: rest, buffer, eof, value =>
    if isdigit cls c then Read.NUMBER.loop cls rest c eof (value.push buffer)
    else ({ input_stream_ := rest, buffer_ := c, end_of_file_ := eof }, value.push buffer)
  | [], buffer, _, value =>
    ({ input_stream_ := [], buffer_ := ' ', end_of_file_ := true }, value.push buffer)

/-- Method `Read<OPEN_PARENTHESIS>`; `none` when it returns false. -/
def Read.OPEN_PARENTHESIS (t : Tokenizer) : Option (Token × Tokenizer) :=
  if t.buffer_ = '(' then some ({ name := TokenName.OPEN_PARENTHESIS, value := "" }, t.GetChar)
  else none

/-- Method `Read<CLOSE_PARENTHESIS>`; `none` when it returns false. -/
def Read.CLOSE_PARENTHESIS (t : Tokenizer) : Option (Token × Tokenizer) :=
  if t.buffer_ = ')' then some ({ name := TokenName.CLOSE_PARENTHESIS, value := "" }, t.GetChar)
  else none

/-- Method `Read<KEYWORD>`; `none` when it returns false. -/
def Read.KEYWORD (cls : CharClass) (t : Tokenizer) : Option (Token × Tokenizer) :=
  if t.buffer_ = ':' then
    let r := Read.KEYWORD.loop cls t.input_stream_ t.end_of_file_ ""
    some ({ name := TokenName.KEYWORD, value := r.2 }, r.1)
  else none

/-- Method `Read<STRING>`; `none` when it returns false. The error log on a
literal that does not end changes nothing; the `GetChar()` after the loop
reads past the closing double quote. -/
def Read.STRING (t : Tokenizer) : Option (Token × Tokenizer) :=
  if t.buffer_ = '"' then
    let r := Read.STRING.loop t.input_stream_ t.buffer_ t.end_of_file_ false ""
    some ({ name := TokenName.STRING, value := r.2 }, r.1.GetChar)
  else none

/-- Method `Read<TRUE>`; `none` when it returns false. -/
def Read.TRUE (t : Tokenizer) : Option (Token × Tokenizer) :=
  if t.buffer_ = 'T' then some ({ name := TokenName.TRUE, value := "" }, t.GetChar)
  else none

/-- Method `Read<NUMBER>`; `none` when it returns false. -/
def Read.NUMBER (cls : CharClass) (t : Tokenizer) : Option (Token × Tokenizer) :=
  if isdigit cls t.buffer_ || t.buffer_ = '-' then
    let r := Read.NUMBER.loop cls t.input_stream_ t.buffer_ t.end_of_file_ ""
    some ({ name := TokenName.NUMBER, value := r.2 }, r.1)
  else none

/-- Method `Read<NIL>`; `none` when it returns false. After an `N` the next two
characters are checked with `CHECK` to be `I` and `L`. -/
def Read.NIL (t : Tokenizer) : Except Abort (Option (Token × Tokenizer)) :=
  if t.buffer_ = 'N' then
    let t1 := t.GetChar
    if 'I' = t1.buffer_ then
      let t2 := t1.GetChar
      if 'L' = t2.buffer_ then
        Except.ok (some ({ name := TokenName.NIL, value := "" }, t2.GetChar))
      else Except.error Abort.checkFailed
    else Except.error Abort.checkFailed
  else Except.ok none

/-- Method `Tokenizer::Next(token)`: the returned flag, the token after the call
and the tokenizer after the call. `token` is the token before the call: when
no `Read` accepts, only its name is overwritten, and at the end of the file
it is left as it is. -/
def Next (cls : CharClass) (t : Tokenizer) (token : Token) :
    Except Abort (Bool × Token × Tokenizer) :=
  let t := t.skipSpaces cls
  if !t.end_of_file_ then
    match Read.OPEN_PARENTHESIS t with
    | some r => Except.ok (true, r)
    | none =>
    match Read.CLOSE_PARENTHESIS t with
    | some r => Except.ok (true, r)
    | none =>
    match Read.KEYWORD cls t with
    | some r => Except.ok (true, r)
    | none =>
    match Read.STRING t with
    | some r => Except.ok (true, r)
    | none =>
    match Read.TRUE t with
    | some r => Except.ok (true, r)
    | none =>
    match Read.NUMBER cls t with
    | some r => Except.ok (true, r)
    | none =>
    match Read.NIL t with
    | Except.error e => Except.error e
    | Except.ok (some r) => Except.ok (true, r)
    | Except.ok none => Except.ok (true, { token with name := TokenName.INVALID_TOKEN }, t)
  else Except.ok (false, token, t)

end Tokenizer

/-- The value of a decimal digit. -/
def digitValue (c : Char) : Nat := c.toNat - '0'.toNat

/-- Function `std::stoi(str)` with base 10: blanks (`std::iswspace`) are
skipped, a sign may follow, then the longest run of decimal digits is
converted. It throws `std::invalid_argument` when there is no digit and
`std::out_of_range` when the number is not an `int`; what follows the digits
is ignored. -/
def stoi (cls : CharClass) (str : String) : Except Abort Int :=
  let text := str.toList.dropWhile (iswspace cls)
  let negative := decide (text.head? = some '-')
  let unsigned := if text.head? = some '-' ∨ text.head? = some '+' then text.tail else text
  let digits := unsigned.takeWhile basicDigit
  if digits = [] then Except.error Abort.invalid_argument
  else
    let magnitude : Int := (digits.foldl (fun n c => 10 * n + digitValue c) 0 : Nat)
    let number : Int := if negative then -magnitude else magnitude
    if number < -2147483648 ∨ 2147483647 < number then Except.error Abort.out_of_range
    else Except.ok number

namespace Tokenizer

/-- A token before it is assigned: `Token token;` gives it an empty value; the
name it is given here is overwritten by every `Next` that returns true. -/
def freshToken : Token := { name := TokenName.INVALID_TOKEN, value := "" }

/-- Method `Tokenizer::Expect(name)`: the returned flag and the tokenizer after
the call. -/
def Expect (cls : CharClass) (t : Tokenizer) (name : TokenName) :
    Except Abort (Bool × Tokenizer) :=
  match t.Next cls freshToken with
  | Except.error e => Except.error e
  | Except.ok (more, token, t1) => Except.ok (more && decide (token.name = name), t1)

/-- Method `Tokenizer::ExpectNumber()`. -/
def ExpectNumber (cls : CharClass) (t : Tokenizer) : Except Abort (Int × Tokenizer) :=
  match t.Next cls freshToken with
  | Except.error e => Except.error e
  | Except.ok (more, token, t1) =>
    if more && decide (TokenName.NUMBER = token.name) then
      match stoi cls token.value with
      | Except.error e => Except.error e
      | Except.ok number => Except.ok (number, t1)
    else Except.error Abort.checkFailed

/-- Method `Tokenizer::ExpectString()`. -/
def ExpectString (cls : CharClass) (t : Tokenizer) : Except Abort (String × Tokenizer) :=
  match t.Next cls freshToken with
  | Except.error e => Except.error e
  | Except.ok (more, token, t1) =>
    if more && decide (TokenName.STRING = token.name) then Except.ok (token.value, t1)
    else Except.error Abort.checkFailed

end Tokenizer

/-! ## The object reader (`lisp/parser.h`) -/

/-- Modelled from the spec: class `LispObject` of `lisp_object.h`, which is not
among the sources. The spec names it a tagged-variant intermediate value
(number, string, keyed object, list); the reader builds it with
`LispObject::Number`, `LispObject::String`, `LispObject::List` with `Push`,
and `LispObject::Object` with `result[key] = ...`. -/
inductive LispObject where
  | Number (value : Int)
  | String (value : String)
  | List (items : List LispObject)
  | Object (fields : List (String × LispObject))

/-- Modelled from the spec: the assignment `result[key] = object` on a keyed
object of `lisp_object.h`: the binding of `key` is overwritten or created. -/
def assignField (key : String) (object : LispObject) :
    List (String × LispObject) → List (String × LispObject)
  | [] => [(key, object)]
  | (k, o) :: rest =>
    if k = key then (key, object) :: rest else (k, o) :: assignField key object rest

/-- How a call of the reader ends: with an object and the tokenizer after it,
with the end of the process, or with the bound on the number of nested calls
and rounds used up. -/
inductive ReadResult (α : Type) where
  | done (result : α) (tokenizer : Tokenizer)
  | abort (cause : Abort)
  | outOfFuel

mutual

/-- Method `LispObjectReader::ReadObject(cache)`. The local `Token token;` is
tested before it is assigned: `garbage depth` is the name it holds then, in
a call nested `depth` deep. The first argument bounds the number of nested
calls and loop rounds. -/
def LispObjectReader.ReadObject (cls : CharClass) (garbage : Nat → TokenName) :
    Nat → Nat → Tokenizer → Token → ReadResult LispObject
  | 0, _, _, _ => ReadResult.outOfFuel
  | fuel + 1, depth, tokenizer, cache =>
    let token : Token := { name := garbage depth, value := "" }
    let first : Except Abort (Token × Tokenizer) :=
      if TokenName.INVALID_TOKEN = token.name then Except.ok (cache, tokenizer)
      else
        match tokenizer.Next cls token with
        | Except.error e => Except.error e
        | Except.ok (_, token, tokenizer) => Except.ok (token, tokenizer)
    match first with
    | Except.error e => ReadResult.abort e
    | Except.ok (token, tokenizer) =>
      match token.name with
      | TokenName.NUMBER =>
        match stoi cls token.value with
        | Except.error e => ReadResult.abort e
        | Except.ok number => ReadResult.done (LispObject.Number number) tokenizer
      | TokenName.STRING => ReadResult.done (LispObject.String token.value) tokenizer
      | name =>
        if TokenName.OPEN_PARENTHESIS = name then
          match tokenizer.Next cls token with
          | Except.error e => ReadResult.abort e
          | Except.ok (false, _, _) => ReadResult.abort Abort.checkFailed
          | Except.ok (true, token, tokenizer) =>
            if TokenName.KEYWORD = token.name then
              LispObjectReader.ReadObject.object cls garbage fuel depth tokenizer token token.value []
            else
              match LispObjectReader.ReadObject cls garbage fuel (depth + 1) tokenizer token with
              | ReadResult.done object tokenizer =>
                LispObjectReader.ReadObject.list cls garbage fuel depth tokenizer token [object]
              | ReadResult.abort e => ReadResult.abort e
              | ReadResult.outOfFuel => ReadResult.outOfFuel
        else ReadResult.abort Abort.checkFailed

/-- The loop `while (!complete)` of the object branch of `ReadObject`, with the
local `token`, the current `key` and the fields assigned so far. -/
def LispObjectReader.ReadObject.object (cls : CharClass) (garbage : Nat → TokenName) :
    Nat → Nat → Tokenizer → Token → String → List (String × LispObject) →
      ReadResult LispObject
  | 0, _, _, _, _, _ => ReadResult.outOfFuel
  | fuel + 1, depth, tokenizer, token, key, fields =>
    match LispObjectReader.ReadObject cls garbage fuel (depth + 1) tokenizer
        { name := TokenName.INVALID_TOKEN, value := "" } with
    | ReadResult.abort e => ReadResult.abort e
    | ReadResult.outOfFuel => ReadResult.outOfFuel
    | ReadResult.done object tokenizer =>
      let fields := assignField key object fields
      match tokenizer.Next cls token with
      | Except.error e => ReadResult.abort e
      | Except.ok (false, _, _) => ReadResult.abort Abort.checkFailed
      | Except.ok (true, token, tokenizer) =>
        if TokenName.CLOSE_PARENTHESIS = token.name then
          ReadResult.done (LispObject.Object fields) tokenizer
        else if TokenName.KEYWORD = token.name then
          LispObjectReader.ReadObject.object cls garbage fuel depth tokenizer token token.value fields
        else ReadResult.abort Abort.checkFailed

/-- The loop `while (true)` of the list branch of `ReadObject`, with the local
`token` and the elements pushed so far. -/
def LispObjectReader.ReadObject.list (cls : CharClass) (garbage : Nat → TokenName) :
    Nat → Nat → Tokenizer → Token → List LispObject → ReadResult LispObject
  | 0, _, _, _, _ => ReadResult.outOfFuel
  | fuel + 1, depth, tokenizer, token, items =>
    match tokenizer.Next cls token with
    | Except.error e => ReadResult.abort e
    | Except.ok (false, _, _) => ReadResult.abort Abort.checkFailed
    | Except.ok (true, token, tokenizer) =>
      if TokenName.CLOSE_PARENTHESIS = token.name then
        ReadResult.done (LispObject.List items) tokenizer
      else
        match LispObjectReader.ReadObject cls garbage fuel (depth + 1) tokenizer token with
        | ReadResult.done object tokenizer =>
          LispObjectReader.ReadObject.list cls garbage fuel depth tokenizer token (items ++ [object])
        | ReadResult.abort e => ReadResult.abort e
        | ReadResult.outOfFuel => ReadResult.outOfFuel

end

/-- Method `LispObjectReader::Read()`. -/
def LispObjectReader.Read (cls : CharClass) (garbage : Nat → TokenName) (fuel : Nat)
    (tokenizer : Tokenizer) :
    ReadResult LispObject :=
  LispObjectReader.ReadObject cls garbage fuel 0 tokenizer
    { name := TokenName.INVALID_TOKEN, value := "" }

/-! ## Specification-side definitions for the tokenizer -/

/-- The value of a string literal in the words of the claim: every backslash
of the text between the delimiters is removed and every double quote in it
is replaced by `|`. -/
def unescape (body : List Char) : List Char :=
  (body.filter (fun c => decide (c ≠ '\\'))).map (fun c => if c = '"' then '|' else c)

/-- Every double quote of `body` directly follows a backslash and `body` does
not end with a backslash; `escape` tells whether a backslash directly
precedes `body`. -/
def quotesEscaped : Bool → List Char → Prop
  | escape, [] => escape = false
  | escape, c :: rest => (c = '"' → escape = true) ∧ quotesEscaped (decide (c = '\\')) rest

/-! ## The command entry point (`core/find_armor.cc`)

The classes `ArmorUp` and `Query` and the macro `CHECK_SUCCESS` are not among
the sources: `main` is embedded as the calls it makes on them, in order, and
the way it ends. -/

/-- A call of `main` on `ArmorUp` or `Query`: the constructor
`ArmorUp armor_up(argv[1])`, `armor_up.ListSkills()`,
`Query::ParseFile(argv[2], &query)` and `armor_up.SearchAndOutput(query, k)`. -/
inductive MainCall (Query : Type) where
  | ArmorUp (data_folder : String)
  | ListSkills
  | ParseFile (path : String)
  | SearchAndOutput (query : Query) (k : Int)

/-- How `main` ends: it returns a code, or a check ends the process. -/
inductive MainExit where
  | returned (code : Int)
  | aborted
deriving DecidableEq, Repr

/-- Function `main(argc, argv)` of `find_armor.cc`, with `argc = argv.length`.
`ParseFile path` is the query that `Query::ParseFile` stores when
`CHECK_SUCCESS` lets the program go on, `none` when it ends the process. -/
def find_armor.main {Query : Type} (ParseFile : String → Option Query) (argv : List String) :
    List (MainCall Query) × MainExit :=
  let argc := argv.length
  if 2 ≤ argc then
    let armor_up := MainCall.ArmorUp (argv.getD 1 "")
    if argc < 3 then ([armor_up, MainCall.ListSkills], MainExit.returned 0)
    else
      match ParseFile (argv.getD 2 "") with
      | none => ([armor_up, MainCall.ParseFile (argv.getD 2 "")], MainExit.aborted)
      | some query =>
        ([armor_up, MainCall.ParseFile (argv.getD 2 ""), MainCall.SearchAndOutput query 10],
          MainExit.returned 0)
  else ([], MainExit.aborted)

/-! ## The build search, from the spec

The search engine (`core/armor_up.h`) is not among the sources. Sections 3,
4.3, 4.4 and 4.5 of the spec describe it; what they leave open (the order
of the slots, the view of the catalog with its virtual pieces, the bound
used for pruning, the scorer) is a parameter. -/

namespace Spec

/-- Modelled from the spec: the build candidate of section 3, the result type
of the missing search: the chosen piece of every slot and the chosen
accessories, with repetitions. -/
structure Build where
  pieces : List Armor
  jewels : List Jewel
deriving DecidableEq, Repr

/-- Modelled from the spec: the sum of the socket capacities of the chosen
pieces of a build of the missing search (section 3). -/
def capacity (pieces : List Armor) : Int := (pieces.map (fun a => a.holes)).sum

/-- Modelled from the spec: the total socket cost of the accessories of a build
of the missing search (section 3). -/
def cost (jewels : List Jewel) : Int := (jewels.map (fun j => j.holes)).sum

/-- Modelled from the spec: the points a list of contributions gives to one
ability; contributions to the same ability id sum (section 3). The missing
search accumulates them. -/
def points (skill : Int) (effects : List Effect) : Int :=
  ((effects.filter (fun e => decide (e.skill_id = skill))).map (fun e => e.points)).sum

/-- Modelled from the spec: the deficits that the missing search hands to the
packing sub-solver at a leaf (section 4.3): for every ability of the
requirement set, the required minimum less the points of the chosen pieces. -/
def deficits (requirements : List (Int × Int)) (pieces : List Armor) : List (Int × Int) :=
  requirements.map (fun r => (r.1, r.2 - (pieces.map (fun a => points r.1 a.effects)).sum))

/-- Modelled from the spec: the ability that the missing sub-solver of section
4.4 attends to first: among the abilities still in deficit, one with the
highest scorer value; `none` when every deficit is covered. -/
def mostDeficient (Score : Int → Int) : List (Int × Int) → Option Int
  | [] => none
  | (skill, need) :: rest =>
    match mostDeficient Score rest with
    | none => if 0 < need then some skill else none
    | some other =>
      if 0 < need ∧ Score other ≤ Score skill then some skill else some other

/-- Modelled from the spec: the tie-break of the missing sub-solver of section
4.4: among the feasible packings, one that uses the lowest total capacity. -/
def cheapest : List (List Jewel) → Option (List Jewel)
  | [] => none
  | packing :: rest =>
    match cheapest rest with
    | none => some packing
    | some other => if cost packing ≤ cost other then some packing else some other

/-- Modelled from the spec: the search of the missing sub-solver `Pack` of
section 4.4, greedy by selectivity with backtracking: when no ability is in
deficit the packing is complete; otherwise every accessory that gives points
to the most deficient ability and fits the remaining capacity is tried, the
rest is packed into the capacity that is left, and the cheapest packing
found is returned. An accessory costs at least one socket, so the first
argument, the number of accessories that may still be placed, is no cap when
it starts at the capacity. -/
def Pack.search (jewels : List Jewel) (Score : Int → Int) :
    Nat → List (Int × Int) → Int → Option (List Jewel)
  | 0, needs, _ => if mostDeficient Score needs = none then some [] else none
  | fuel + 1, needs, remaining =>
    match mostDeficient Score needs with
    | none => some []
    | some target =>
      cheapest
        ((jewels.filter (fun j =>
            decide (1 ≤ j.holes) && decide (j.holes ≤ remaining) &&
              decide (0 < points target j.effects))).filterMap
          (fun j =>
            (Pack.search jewels Score fuel
              (needs.map (fun d => (d.1, d.2 - points d.1 j.effects)))
              (remaining - j.holes)).map (fun rest => j :: rest)))

/-- Modelled from the spec: the contract `Pack(deficits, capacity)` of the
missing sub-solver of section 4.4: a multiset of accessories that covers every
deficit with a total cost within the capacity, or failure. -/
def Pack (jewels : List Jewel) (Score : Int → Int) (needs : List (Int × Int)) (cap : Int) :
    Option (List Jewel) :=
  if cap < 0 then none else Pack.search jewels Score cap.toNat needs cap

/-- Modelled from the spec: the missing slot-assignment search of section 4.3,
depth first over the slots that are left. `view chosen slot` is the list of
candidates of the slot, virtual pieces included; `prune` is the bound check.
At a leaf the deficits and the capacity of the chosen pieces go to `Pack`, and
the branch gives a build only if `Pack` succeeds. -/
def Search.go (view : List Armor → ArmorPart → List Armor)
    (prune : List (Int × Int) → List Armor → List ArmorPart → Bool)
    (jewels : List Jewel) (Score : Int → Int) (requirements : List (Int × Int)) :
    List ArmorPart → List Armor → List Build
  | [], chosen =>
    match Pack jewels Score (deficits requirements chosen) (capacity chosen) with
    | some packing => [{ pieces := chosen, jewels := packing }]
    | none => []
  | slot :: slots, chosen =>
    (view chosen slot).flatMap (fun piece =>
      if prune requirements (chosen ++ [piece]) slots then []
      else Search.go view prune jewels Score requirements slots (chosen ++ [piece]))

/-- Modelled from the spec: the quality score of the missing collector of
section 4.5: the sum of the defense values of the pieces. -/
def quality (build : Build) : Int := (build.pieces.map (fun a => a.defense)).sum

/-- Modelled from the spec: `Offer` of the missing collector of section 4.5, on
the builds held so far, best first: the build goes in front of the first
held build that it beats, and only the best `K` are kept. -/
def Offer (K : Nat) (held : List Build) (build : Build) : List Build :=
  ((held.takeWhile (fun b => decide (quality build ≤ quality b))) ++
    build :: held.dropWhile (fun b => decide (quality build ≤ quality b))).take K

/-- Modelled from the spec: the missing search as a whole (sections 2 and 6):
the feasible builds of the slot-assignment search are offered to the
collector, whose `Results()` are returned. -/
def Search (view : List Armor → ArmorPart → List Armor)
    (prune : List (Int × Int) → List Armor → List ArmorPart → Bool)
    (order : List ArmorPart) (jewels : List Jewel) (Score : Int → Int)
    (requirements : List (Int × Int)) (K : Nat) : List Build :=
  (Search.go view prune jewels Score requirements order []).foldl (Offer K) []

end Spec

/-- The candidates of a slot in the sample data set. -/
def sampleView (_chosen : List Armor) (part : ArmorPart) : List Armor :=
  (sampleDataSet.ArmorIds part).filterMap sampleDataSet.armor

/-- The build with the helm, the second cuirass, the amulet and the jewel of
the sample data set. -/
def sampleBuild : Spec.Build :=
  { pieces := (sampleView [] ArmorPart.HEAD ++ (sampleView [] ArmorPart.BODY).drop 1) ++
      sampleView [] ArmorPart.AMULET
    jewels := sampleDataSet.jewels_ }

/-! ## Template `ParseList<int>` (`lisp/parser.h`) -/

/-- Method `Tokenizer::ExpectOpenParenOrNil()`. -/
def Tokenizer.ExpectOpenParenOrNil (cls : CharClass) (t : Tokenizer) :
    Except Abort (TokenName × Tokenizer) :=
  match t.Next cls Tokenizer.freshToken with
  | Except.error e => Except.error e
  | Except.ok (more, token, t1) =>
    if more then
      if TokenName.NIL = token.name ∨ TokenName.OPEN_PARENTHESIS = token.name then
        Except.ok (token.name, t1)
      else Except.error Abort.checkFailed
    else Except.error Abort.checkFailed

/-- The loop `while (!complete)` of `ParseList<int>::Do`, with the local `token`
and the `result` so far. The first argument bounds the number of rounds. -/
def ParseList.int.loop (cls : CharClass) :
    Nat → Tokenizer → Token → List Int → ReadResult (List Int)
  | 0, _, _, _ => ReadResult.outOfFuel
  | fuel + 1, tokenizer, token, result =>
    match tokenizer.Next cls token with
    | Except.error e => ReadResult.abort e
    | Except.ok (false, _, _) => ReadResult.abort Abort.checkFailed
    | Except.ok (true, token, tokenizer) =>
      match token.name with
      | TokenName.CLOSE_PARENTHESIS => ReadResult.done result tokenizer
      | TokenName.NUMBER =>
        match stoi cls token.value with
        | Except.error e => ReadResult.abort e
        | Except.ok number => ParseList.int.loop cls fuel tokenizer token (result ++ [number])
      | _ => ReadResult.abort Abort.checkFailed

/-- Function `ParseList<int>::Do(tokenizer, expect_open_paren)`. A round that
goes on has read a `NUMBER` token, at least one character, so one round more
than there are unread characters is enough. -/
def ParseList.int.Do (cls : CharClass) (tokenizer : Tokenizer) (expect_open_paren : Bool) :
    ReadResult (List Int) :=
  if expect_open_paren then
    match tokenizer.ExpectOpenParenOrNil cls with
    | Except.error e => ReadResult.abort e
    | Except.ok (token_name, tokenizer) =>
      if TokenName.NIL = token_name then ReadResult.done [] tokenizer
      else ParseList.int.loop cls (tokenizer.unread.length + 1) tokenizer Tokenizer.freshToken []
  else ParseList.int.loop cls (tokenizer.unread.length + 1) tokenizer Tokenizer.freshToken []

/-- The text of a list of ints in the words of the claim: `(`, the decimal
representations separated by blanks, `)`. -/
def intListText (xs : List Int) : List Char :=
  ("(" ++ " ".intercalate (xs.map toString) ++ ")").toList

/-- What follows the first number in `intListText`: every further number after
a blank, then `)`. -/
def intListText.rest : List Int → List Char
  | [] => [')']
  | x :: xs => ' ' :: ((toString x).toList ++ intListText.rest xs)

/-- The result of the call of `Next` number `n + 1`, each call with the token
that the call before has left. -/
def Tokenizer.NextAgain (cls : CharClass) :
    Nat → Tokenizer → Token → Except Abort (Bool × Token × Tokenizer)
  | 0, t, token => t.Next cls token
  | n + 1, t, token =>
    match t.Next cls token with
    | Except.error e => Except.error e
    | Except.ok (_, token, t) => Tokenizer.NextAgain cls n t token

/-- A classification that finds neither a blank nor a digit outside the basic
character set. -/
def basicClass : CharClass :=
  { isspace := fun _ => false
    isdigit := fun _ => false
    iswspace := fun _ => false }

/-! ## The skill-name table: lemmas -/

theorem SkillTable.find_assign_same (key : String) (value : Int) (table : SkillTable) :
    SkillTable.find key (SkillTable.assign key value table) = some value := by
  induction table with
  | nil => simp [SkillTable.assign, SkillTable.find]
  | cons kv rest ih =>
    obtain ⟨k, v⟩ := kv
    by_cases h : k = key
    · simp [SkillTable.assign, SkillTable.find, h]
    · simp [SkillTable.assign, SkillTable.find, h, ih]

theorem SkillTable.find_assign_other (key other : String) (value : Int) (table : SkillTable)
    (h : other ≠ key) :
    SkillTable.find other (SkillTable.assign key value table) = SkillTable.find other table := by
  induction table with
  | nil => simp [SkillTable.assign, SkillTable.find, Ne.symm h]
  | cons kv rest ih =>
    obtain ⟨k, v⟩ := kv
    by_cases hk : k = key
    · subst hk
      simp [SkillTable.assign, SkillTable.find, Ne.symm h]
    · by_cases ho : k = other
      · subst ho
        simp [SkillTable.assign, SkillTable.find, hk]
      · simp [SkillTable.assign, SkillTable.find, hk, ho, ih]

theorem UpdateSkillSystemLookUp.loop_find_absent (name : String) :
    ∀ (systems : List SkillSystem) (i : Nat) (table : SkillTable),
      (∀ s ∈ systems, s.name ≠ name) →
      SkillTable.find name (UpdateSkillSystemLookUp.loop systems i table) =
        SkillTable.find name table := by
  intro systems
  induction systems with
  | nil => intro i table _; rfl
  | cons s rest ih =>
    intro i table h
    have hs : s.name ≠ name := h s (List.mem_cons_self _ _)
    have hrest : ∀ t ∈ rest, t.name ≠ name := fun t ht => h t (List.mem_cons_of_mem _ ht)
    simp only [UpdateSkillSystemLookUp.loop]
    rw [ih (i + 1) _ hrest, SkillTable.find_assign_other _ _ _ _ (Ne.symm hs)]

theorem UpdateSkillSystemLookUp.loop_find_present (name : String) :
    ∀ (systems : List SkillSystem) (i : Nat) (table : SkillTable),
      (∃ s ∈ systems, s.name = name) →
      ∃ j s, systems[j]? = some s ∧ s.name = name ∧
        SkillTable.find name (UpdateSkillSystemLookUp.loop systems i table) =
          some ((i + j : Nat) : Int) := by
  intro systems
  induction systems with
  | nil => intro i table h; obtain ⟨s, hs, _⟩ := h; cases hs
  | cons s rest ih =>
    intro i table h
    simp only [UpdateSkillSystemLookUp.loop]
    by_cases hrest : ∃ t ∈ rest, t.name = name
    · obtain ⟨j, t, hj, ht, hfind⟩ := ih (i + 1) (SkillTable.assign s.name (i : Int) table) hrest
      refine ⟨j + 1, t, by simpa using hj, ht, ?_⟩
      rw [hfind]
      congr 2
      omega
    · have hs : s.name = name := by
        obtain ⟨t, ht, htn⟩ := h
        rcases List.mem_cons.mp ht with rfl | ht
        · exact htn
        · exact absurd ⟨t, ht, htn⟩ hrest
      have habs : ∀ t ∈ rest, t.name ≠ name := fun t ht htn => hrest ⟨t, ht, htn⟩
      refine ⟨0, s, by simp, hs, ?_⟩
      rw [UpdateSkillSystemLookUp.loop_find_absent name rest _ _ habs, ← hs,
        SkillTable.find_assign_same]
      simp

/-! ## The remove-and-pop idiom: lemmas -/

theorem popLoop_eq_take {α : Type} :
    ∀ (fuel : Nat) (v : List α) (it i : Nat),
      (v.length - it - i + 1) / 2 ≤ fuel →
      popLoop fuel v it i = v.take (v.length - (v.length - it - i + 1) / 2) := by
  intro fuel
  induction fuel with
  | zero =>
    intro v it i h
    simp only [popLoop]
    have : (v.length - it - i + 1) / 2 = 0 := by omega
    rw [this]
    simp
  | succ fuel ih =>
    intro v it i h
    simp only [popLoop]
    split
    · rename_i hlt
      have hlen : (v.dropLast).length = v.length - 1 := by simp
      rw [ih _ _ _ (by rw [hlen]; omega), hlen, List.dropLast_eq_take, List.take_take]
      congr 1
      omega
    · rename_i hge
      have : (v.length - it - i + 1) / 2 = 0 := by omega
      rw [this]
      simp

theorem remove_if.scan_spec {α : Type} (mv : α → α) (pred : α → Bool) :
    ∀ (rest kept holes : List α), ∃ tail : List α,
      remove_if.scan mv pred rest kept holes =
        (kept ++ rest.filter (fun x => !pred x) ++ tail,
          (kept ++ rest.filter (fun x => !pred x)).length) ∧
      tail.length = holes.length + rest.countP pred := by
  intro rest
  induction rest with
  | nil =>
    intro kept holes
    exact ⟨holes, by simp [remove_if.scan], by simp⟩
  | cons x rest ih =>
    intro kept holes
    by_cases hx : pred x = true
    · obtain ⟨tail, h1, h2⟩ := ih kept (holes ++ [x])
      refine ⟨tail, ?_, ?_⟩
      · simp [remove_if.scan, hx, h1]
      · simp [hx, h2]; omega
    · cases holes with
      | nil =>
        obtain ⟨tail, h1, h2⟩ := ih (kept ++ [x]) []
        refine ⟨tail, ?_, ?_⟩
        · simp [remove_if.scan, hx, h1]
        · simp [hx, h2]
      | cons y hs =>
        obtain ⟨tail, h1, h2⟩ := ih (kept ++ [x]) (hs ++ [mv x])
        refine ⟨tail, ?_, ?_⟩
        · simp [remove_if.scan, hx, h1]
        · simp [hx, h2]

/-- The remove-and-pop idiom keeps the elements on which `pred` fails, in
order, followed by half (rounded down) as many stale elements as it had to
remove: the bound of the pop loop shrinks while the counter grows. -/
theorem removeAndPop_spec {α : Type} (mv : α → α) (pred : α → Bool) (v : List α) :
    ∃ tail : List α,
      removeAndPop mv pred v = v.filter (fun x => !pred x) ++ tail ∧
      tail.length = v.countP pred / 2 := by
  obtain ⟨tail, h1, h2⟩ := remove_if.scan_spec mv pred v [] []
  simp only [List.nil_append, List.length_nil, Nat.zero_add] at h1 h2
  refine ⟨tail.take (v.countP pred / 2), ?_, ?_⟩
  · simp only [removeAndPop, remove_if, h1]
    rw [popLoop_eq_take _ _ _ _ (by simp; omega)]
    simp only [List.length_append, h2]
    rw [List.take_append_eq_append_take]
    have e1 : (v.filter (fun x => !pred x)).length + v.countP pred -
        ((v.filter (fun x => !pred x)).length + v.countP pred -
          (v.filter (fun x => !pred x)).length - 0 + 1) / 2 -
        (v.filter (fun x => !pred x)).length = v.countP pred / 2 := by omega
    rw [e1, List.take_of_length_le (by omega)]
  · simp [h2]; omega

/-! ## Loading: lemmas -/

theorem DataSet.torsoUpSearch_neg_iff :
    ∀ (systems : List SkillSystem) (id : Nat) (t : Int),
      DataSet.torsoUpSearch systems id t < 0 ↔
        t < 0 ∧ ∀ system ∈ systems, ∀ skill ∈ system.skills, skill.points ≠ 0 := by
  intro systems
  induction systems with
  | nil => intro id t; simp [DataSet.torsoUpSearch]
  | cons system rest ih =>
    intro id t
    by_cases hany : system.skills.any (fun skill => decide (0 = skill.points)) = true
    · have hex : ¬ ∀ s ∈ system :: rest, ∀ skill ∈ s.skills, skill.points ≠ 0 := by
        intro hall
        obtain ⟨skill, hmem, hz⟩ := List.any_eq_true.mp hany
        exact hall system (List.mem_cons_self _ _) skill hmem (of_decide_eq_true hz).symm
      simp only [DataSet.torsoUpSearch, hany, if_true]
      by_cases hpos : (id : Int) > 0
      · simp only [hpos, if_true]
        constructor
        · intro h; omega
        · intro h; exact absurd h.2 hex
      · simp only [hpos, if_false, ih]
        constructor
        · intro h; omega
        · intro h; exact absurd h.2 hex
    · have hhead : ∀ skill ∈ system.skills, skill.points ≠ 0 := by
        intro skill hmem hz
        exact hany (List.any_eq_true.mpr ⟨skill, hmem, decide_eq_true hz.symm⟩)
      simp only [DataSet.torsoUpSearch, hany, Bool.false_eq_true, if_false]
      by_cases hpos : t > 0
      · simp only [hpos, if_true]
        constructor
        · intro h; omega
        · intro h; omega
      · simp only [hpos, if_false, ih]
        constructor
        · rintro ⟨h1, h2⟩
          refine ⟨h1, ?_⟩
          intro s hs
          rcases List.mem_cons.mp hs with rfl | hs
          · exact hhead
          · exact h2 s hs
        · rintro ⟨h1, h2⟩
          exact ⟨h1, fun s hs => h2 s (List.mem_cons_of_mem _ hs)⟩

theorem DataSet.ReadArmors.push_indices {Part p : ArmorPart} (hp : p ≠ Part) :
    ∀ (l : List Armor) (ds : DataSet),
      (l.foldl (DataSet.ReadArmors.push Part) ds).armor_indices_by_parts_ p =
        ds.armor_indices_by_parts_ p := by
  intro l
  induction l with
  | nil => intro ds; rfl
  | cons a rest ih =>
    intro ds
    rw [List.foldl_cons, ih]
    simp [DataSet.ReadArmors.push, hp]

theorem DataSet.ReadArmors.push_frame (Part : ArmorPart) :
    ∀ (l : List Armor) (ds : DataSet),
      (l.foldl (DataSet.ReadArmors.push Part) ds).torso_up_id = ds.torso_up_id ∧
      (l.foldl (DataSet.ReadArmors.push Part) ds).jewels_ = ds.jewels_ ∧
      (l.foldl (DataSet.ReadArmors.push Part) ds).skill_systems_ = ds.skill_systems_ := by
  intro l
  induction l with
  | nil => intro ds; exact ⟨rfl, rfl, rfl⟩
  | cons a rest ih =>
    intro ds
    rw [List.foldl_cons]
    exact ih _

theorem DataSet.ReadArmors_ok {mv : Armor → Armor} {table : SkillTable} {Part : ArmorPart}
    {file : List ArmorFields} {ds ds1 : DataSet}
    (h : DataSet.ReadArmors mv table Part file ds = Except.ok ds1) :
    ds1.torso_up_id = ds.torso_up_id ∧
    ∀ p, p ≠ Part → ds1.armor_indices_by_parts_ p = ds.armor_indices_by_parts_ p := by
  unfold DataSet.ReadArmors at h
  split at h
  · cases h
  · injection h with h
    subst h
    exact ⟨(DataSet.ReadArmors.push_frame Part _ ds).1,
      fun p hp => DataSet.ReadArmors.push_indices hp _ ds⟩

theorem ParseList.armors_error {table : SkillTable} :
    ∀ {file : List ArmorFields} {e : LoadError},
      ParseList.armors table file = Except.error e → e = LoadError.checkFailed := by
  intro file
  induction file with
  | nil => intro e h; cases h
  | cons f rest ih =>
    intro e h
    cases e with
    | checkFailed => rfl
    | torsoUpNotFound =>
      exfalso
      simp only [ParseList.armors] at h
      split at h
      · rename_i e1 h1
        injection h with h
        subst h
        unfold Armor.construct at h1
        split at h1 <;> cases h1
      · split at h
        · rename_i e2 h2
          injection h with h
          subst h
          cases ih h2
        · cases h

theorem DataSet.ReadArmors_error {mv : Armor → Armor} {table : SkillTable} {Part : ArmorPart}
    {file : List ArmorFields} {ds : DataSet} {e : LoadError}
    (h : DataSet.ReadArmors mv table Part file ds = Except.error e) :
    e = LoadError.checkFailed := by
  unfold DataSet.ReadArmors at h
  split at h
  · rename_i e1 h1
    injection h with h
    subst h
    exact ParseList.armors_error h1
  · cases h

/-- The constructor ends with `Torso Up not found` exactly when the search
leaves `torso_up_id` negative. -/
theorem DataSet.load_error_torso {mv : Armor → Armor} {folder : DataFolder} :
    DataSet.load mv folder = Except.error LoadError.torsoUpNotFound ↔
      DataSet.torsoUpSearch folder.skills 0 (-1) < 0 := by
  constructor
  · intro h
    by_contra hneg
    unfold DataSet.load at h
    simp only [hneg, if_false] at h
    split at h
    · rename_i hr; injection h with h; subst h; cases DataSet.ReadArmors_error hr
    split at h
    · rename_i hr; injection h with h; subst h; cases DataSet.ReadArmors_error hr
    split at h
    · rename_i hr; injection h with h; subst h; cases DataSet.ReadArmors_error hr
    split at h
    · rename_i hr; injection h with h; subst h; cases DataSet.ReadArmors_error hr
    split at h
    · rename_i hr; injection h with h; subst h; cases DataSet.ReadArmors_error hr
    split at h
    · rename_i hr; injection h with h; subst h; cases DataSet.ReadArmors_error hr
    cases h
  · intro h
    unfold DataSet.load
    simp only [h, if_true]

/-- Facts about a data set whose constructor returned. -/
theorem DataSet.load_ok {mv : Armor → Armor} {folder : DataFolder} {ds : DataSet}
    (h : DataSet.load mv folder = Except.ok ds) :
    ds.reserved_armor_count_ = ds.armors_.length ∧
    ds.torso_up_id = DataSet.torsoUpSearch folder.skills 0 (-1) ∧
    0 ≤ ds.torso_up_id ∧
    ∃ n, ds.armor_indices_by_parts_ ArmorPart.AMULET = [n] ∧
      ds.armors_[n]? = some (Armor.Amulet 0 []) := by
  unfold DataSet.load at h
  simp only at h
  split at h
  · cases h
  rename_i hneg
  split at h
  · cases h
  rename_i ds1 h1
  split at h
  · cases h
  rename_i ds2 h2
  split at h
  · cases h
  rename_i ds3 h3
  split at h
  · cases h
  rename_i ds4 h4
  split at h
  · cases h
  rename_i ds5 h5
  split at h
  · cases h
  rename_i ds6 h6
  injection h with h
  subst h
  have r1 := DataSet.ReadArmors_ok h1
  have r2 := DataSet.ReadArmors_ok h2
  have r3 := DataSet.ReadArmors_ok h3
  have r4 := DataSet.ReadArmors_ok h4
  have r5 := DataSet.ReadArmors_ok h5
  have r6 := DataSet.ReadArmors_ok h6
  have ht : ds6.torso_up_id = DataSet.torsoUpSearch folder.skills 0 (-1) := by
    rw [r6.1, r5.1, r4.1, r3.1, r2.1, r1.1]
  have hi : ds6.armor_indices_by_parts_ ArmorPart.AMULET = [] := by
    rw [r6.2 _ (by decide), r5.2 _ (by decide), r4.2 _ (by decide), r3.2 _ (by decide),
      r2.2 _ (by decide), r1.2 _ (by decide)]
  refine ⟨rfl, ht, ?_, ds6.armors_.length, ?_, ?_⟩
  · show 0 ≤ ds6.torso_up_id
    rw [ht]; omega
  · simp [DataSet.LoadAmulet, hi]
  · simp [DataSet.LoadAmulet]

/-! ## The two mutators: lemmas -/

theorem DataSet.ClearExtraArmor.loop_eq_take :
    ∀ (fuel : Nat) (armors : List Armor) (reserved : Nat),
      armors.length - reserved ≤ fuel →
      DataSet.ClearExtraArmor.loop fuel armors reserved = armors.take reserved := by
  intro fuel
  induction fuel with
  | zero =>
    intro armors reserved h
    simp only [DataSet.ClearExtraArmor.loop]
    exact (List.take_of_length_le (by omega)).symm
  | succ fuel ih =>
    intro armors reserved h
    simp only [DataSet.ClearExtraArmor.loop]
    split
    · rename_i hlt
      rw [ih _ _ (by simp; omega), List.dropLast_eq_take, List.take_take]
      congr 1
      omega
    · exact (List.take_of_length_le (by omega)).symm

theorem DataSet.ClearExtraArmor_armors (ds : DataSet) :
    ds.ClearExtraArmor.armors_ = ds.armors_.take ds.reserved_armor_count_ := by
  simp only [DataSet.ClearExtraArmor]
  exact DataSet.ClearExtraArmor.loop_eq_take _ _ _ (by omega)

theorem DataSet.Frame.refl (ds0 : DataSet) (h : ds0.reserved_armor_count_ ≤ ds0.armors_.length) :
    DataSet.Frame ds0 ds0 :=
  ⟨rfl, rfl, rfl, rfl, h, fun _ => ⟨[], by simp⟩⟩

theorem DataSet.Frame.step {ds0 ds : DataSet} (h : DataSet.Frame ds0 ds) (c : DataSet.Call) :
    DataSet.Frame ds0 (ds.step c) := by
  cases c with
  | add part a =>
    refine ⟨h.torso, h.jewels, h.reserved, ?_, ?_, ?_⟩
    · show (ds.armors_ ++ [a]).take ds0.reserved_armor_count_ = _
      rw [List.take_append_of_le_length h.size, h.base]
    · show ds0.reserved_armor_count_ ≤ (ds.armors_ ++ [a]).length
      have := h.size
      simp; omega
    · intro p
      obtain ⟨added, hadded⟩ := h.ids p
      show ∃ added, (if p = part then ds.armor_indices_by_parts_ p ++ [ds.armors_.length]
          else ds.armor_indices_by_parts_ p) = ds0.armor_indices_by_parts_ p ++ added
      split
      · exact ⟨added ++ [ds.armors_.length], by rw [hadded, List.append_assoc]⟩
      · exact ⟨added, hadded⟩
  | clear =>
    have harm : (ds.step DataSet.Call.clear).armors_ =
        ds.armors_.take ds0.reserved_armor_count_ := by
      show ds.ClearExtraArmor.armors_ = _
      rw [DataSet.ClearExtraArmor_armors, h.reserved]
    refine ⟨h.torso, h.jewels, h.reserved, ?_, ?_, h.ids⟩
    · rw [harm, List.take_take, Nat.min_self]
      exact h.base
    · rw [harm, List.length_take]
      have := h.size
      omega

theorem DataSet.Frame.run {ds0 : DataSet} :
    ∀ (calls : List DataSet.Call) (ds : DataSet), DataSet.Frame ds0 ds →
      DataSet.Frame ds0 (ds.run calls) := by
  intro calls
  induction calls with
  | nil => intro ds h; exact h
  | cons c rest ih => intro ds h; exact ih _ (h.step c)

theorem DataSet.Frame.of_load {mv : Armor → Armor} {folder : DataFolder} {ds : DataSet}
    (h : DataSet.load mv folder = Except.ok ds) (calls : List DataSet.Call) :
    DataSet.Frame ds (ds.run calls) :=
  DataSet.Frame.run calls ds (DataSet.Frame.refl ds (le_of_eq (DataSet.load_ok h).1))

/-- After `AddExtraArmor` and `ClearExtraArmor` on a loaded data set the armors
are the old ones, but the list of the part has kept the index of the armor
that is gone. -/
theorem DataSet.add_then_clear {mv : Armor → Armor} {folder : DataFolder} {ds : DataSet}
    (h : DataSet.load mv folder = Except.ok ds) (part : ArmorPart) (a : Armor) :
    ((ds.AddExtraArmor part a).ClearExtraArmor).armors = ds.armors ∧
    ((ds.AddExtraArmor part a).ClearExtraArmor).ArmorIds part =
      ds.ArmorIds part ++ [ds.armors.length] ∧
    ∀ q, q ≠ part → ((ds.AddExtraArmor part a).ClearExtraArmor).ArmorIds q = ds.ArmorIds q := by
  refine ⟨?_, ?_, ?_⟩
  · show ((ds.AddExtraArmor part a).ClearExtraArmor).armors_ = ds.armors_
    rw [DataSet.ClearExtraArmor_armors]
    show (ds.armors_ ++ [a]).take ds.reserved_armor_count_ = ds.armors_
    rw [(DataSet.load_ok h).1]
    simp
  · simp [DataSet.ArmorIds, DataSet.ClearExtraArmor, DataSet.AddExtraArmor, DataSet.armors]
  · intro q hq
    simp [DataSet.ArmorIds, DataSet.ClearExtraArmor, DataSet.AddExtraArmor, hq]

/-! ## The scorer: lemmas -/

theorem DataSet.armor_count_eq (ds : DataSet) (effect : Effect) :
    ds.armor_count effect =
      (((ds.armors_.take ds.reserved_armor_count_).countP
        (fun a => a.effects.any (fun f => decide (f.skill_id = effect.skill_id))) : Nat) : Int) := by
  unfold DataSet.armor_count
  generalize ds.reserved_armor_count_ = r
  induction r with
  | zero => simp
  | succ r ih =>
    rw [List.range_succ, List.foldl_append, ih]
    simp only [List.foldl_cons, List.foldl_nil]
    cases hget : ds.armors_[r]? with
    | none =>
      have hlen : ds.armors_.length ≤ r := by
        rcases Nat.lt_or_ge r ds.armors_.length with hlt | hge
        · rw [List.getElem?_eq_getElem hlt] at hget; cases hget
        · exact hge
      simp only
      rw [List.take_of_length_le hlen, List.take_of_length_le (by omega)]
    | some a =>
      obtain ⟨hlt, ha⟩ := List.getElem?_eq_some_iff.mp hget
      have htake : ds.armors_.take (r + 1) = ds.armors_.take r ++ [a] := by
        rw [List.take_succ, hget]; rfl
      simp only
      rw [htake, List.countP_append]
      split <;> simp_all

theorem foldl_cond_add {K β : Type} [AddCommMonoid K] (c : β → Prop) [DecidablePred c]
    (g : β → K) :
    ∀ (l : List β) (acc : K),
      l.foldl (fun acc x => if c x then acc + g x else acc) acc =
        acc + ((l.filter (fun x => decide (c x))).map g).sum := by
  intro l
  induction l with
  | nil => intro acc; simp
  | cons x rest ih =>
    intro acc
    rw [List.foldl_cons, ih]
    by_cases hx : c x
    · simp [hx, add_assoc]
    · simp [hx]

theorem foldl_add_sum {K β : Type} [AddCommMonoid K] (g : β → K) :
    ∀ (l : List β) (acc : K),
      l.foldl (fun acc x => acc + g x) acc = acc + (l.map g).sum := by
  intro l
  induction l with
  | nil => intro acc; simp
  | cons x rest ih =>
    intro acc
    rw [List.foldl_cons, ih]
    simp [add_assoc]

theorem DataSet.jewel_index_eq {K : Type} [DivisionRing K] (exp : K → K) (ds : DataSet)
    (effect : Effect) :
    ds.jewel_index exp effect =
      (ds.jewels_.map (fun j =>
        ((j.effects.filter (fun f => decide (f.skill_id = effect.skill_id))).map
          (fun f => (f.points : K) / (j.holes : K) * exp (((-j.holes : Int) : K) * 0.1))).sum)).sum := by
  unfold DataSet.jewel_index
  have inner : ∀ (j : Jewel) (index : K),
      j.effects.foldl
        (fun index jewel_effect =>
          if jewel_effect.skill_id = effect.skill_id then
            index + (jewel_effect.points : K) / (j.holes : K) * exp (((-j.holes : Int) : K) * 0.1)
          else index) index =
      index + ((j.effects.filter (fun f => decide (f.skill_id = effect.skill_id))).map
          (fun f => (f.points : K) / (j.holes : K) * exp (((-j.holes : Int) : K) * 0.1))).sum := by
    intro j index
    exact foldl_cond_add (fun f : Effect => f.skill_id = effect.skill_id)
      (fun f => (f.points : K) / (j.holes : K) * exp (((-j.holes : Int) : K) * 0.1)) j.effects index
  simp only [inner]
  rw [foldl_add_sum]
  simp

/-! ## The claims -/

/-- Claim C1 (fails on the code): `AddExtraArmor(p, a)` followed by
`ClearExtraArmor()` does not bring the catalog back. On the data set loaded
from `sampleFolder`, adding one piece to `HEAD` and clearing gives back the
old `armors()`, but `ArmorIds(HEAD)` has grown from `[0]` to `[0, 4]`, and
index `4` names no armor any more. -/
theorem AddExtraArmor_ClearExtraArmor_keeps_index :
    DataSet.load id sampleFolder = Except.ok sampleDataSet ∧
    ((sampleDataSet.AddExtraArmor ArmorPart.HEAD sampleExtraArmor).ClearExtraArmor).armors =
      sampleDataSet.armors ∧
    sampleDataSet.ArmorIds ArmorPart.HEAD = [0] ∧
    ((sampleDataSet.AddExtraArmor ArmorPart.HEAD sampleExtraArmor).ClearExtraArmor).ArmorIds
      ArmorPart.HEAD = [0, 4] ∧
    ((sampleDataSet.AddExtraArmor ArmorPart.HEAD sampleExtraArmor).ClearExtraArmor).armor 4 =
      none :=
  ⟨rfl, by decide, by decide, by decide, by decide⟩

/-- Claim C2 (fails on the code): the constructor of `Jewel` does not drop
every effect with an unknown skill name. With two unknown names one effect
with `skill_id == -1` stays; with two unknown names followed by two known
ones, a known effect occurs twice in the result. -/
theorem Jewel_construct_keeps_stale_effects :
    (unknownJewelFields.effects.map
      (Effect.construct (UpdateSkillSystemLookUp sampleSkills))).filter
        (fun e => decide (e.skill_id ≠ -1)) = [] ∧
    (Jewel.construct (UpdateSkillSystemLookUp sampleSkills) unknownJewelFields).effects =
      [{ skill_id := -1, points := 1 }] ∧
    (mixedJewelFields.effects.map
      (Effect.construct (UpdateSkillSystemLookUp sampleSkills))).filter
        (fun e => decide (e.skill_id ≠ -1)) =
      [{ skill_id := 1, points := 3 }, { skill_id := 0, points := 4 }] ∧
    (Jewel.construct (UpdateSkillSystemLookUp sampleSkills) mixedJewelFields).effects =
      [{ skill_id := 1, points := 3 }, { skill_id := 0, points := 4 },
       { skill_id := 1, points := 3 }] := by
  decide

/-- Claim C3 (fails on the code): the constructor of `Armor` keeps the effect
of a skill name that does not resolve. For the names `Attack` (known) and
`Fencing` (unknown) with points 2 and 3, the effects are `(1, 2)` and
`(-1, 3)`. -/
theorem Armor_construct_keeps_unresolved_effect :
    (Armor.construct (UpdateSkillSystemLookUp sampleSkills) unknownArmorFields).toOption.map
      (fun a => a.effects) =
      some [{ skill_id := 1, points := 2 }, { skill_id := -1, points := 3 }] := by
  decide

/-- Claim C4 (fails on the code): `torso_up_id` is not always the lowest index
of a skill system with a 0-point skill. When system 0 and system 1 both have
one, the search does not stop at system 0 (its test is `torso_up_id > 0`) and
the load ends with `torso_up_id == 1`. -/
theorem torso_up_id_not_lowest :
    (twoTorsoSkills[0]?.map
      (fun system => system.skills.any (fun skill => decide (0 = skill.points)))) = some true ∧
    (DataSet.load id twoTorsoFolder).toOption.map (fun ds => ds.torso_up_id) = some 1 := by
  decide

/-- Claim C5: the constructor of `DataSet` ends with `Torso Up not found`
if and only if no loaded skill system has a skill with `points == 0`; when
some system has one, the search leaves `torso_up_id >= 0`, the constructor
goes on, and every data set it returns has `torso_up_id >= 0`. -/
theorem load_fails_iff_no_torso_up (mv : Armor → Armor) (folder : DataFolder) :
    (DataSet.load mv folder = Except.error LoadError.torsoUpNotFound ↔
      ∀ system ∈ folder.skills, ∀ skill ∈ system.skills, skill.points ≠ 0) ∧
    ((∃ system ∈ folder.skills, ∃ skill ∈ system.skills, skill.points = 0) →
      0 ≤ DataSet.torsoUpSearch folder.skills 0 (-1) ∧
      ∀ ds, DataSet.load mv folder = Except.ok ds → 0 ≤ ds.torso_up_id) := by
  have key := DataSet.torsoUpSearch_neg_iff folder.skills 0 (-1)
  constructor
  · rw [DataSet.load_error_torso, key]
    simp
  · rintro ⟨system, hs, skill, hk, hz⟩
    constructor
    · by_contra hneg
      exact (key.mp (by omega)).2 system hs skill hk hz
    · intro ds hds
      exact (DataSet.load_ok hds).2.2.1

/-- Witness of C5: `noTorsoFolder` ends the load with `Torso Up not found`;
`sampleFolder` has a torso-up system and loads with `torso_up_id >= 0`. -/
theorem load_fails_iff_no_torso_up_witness :
    DataSet.load id noTorsoFolder = Except.error LoadError.torsoUpNotFound ∧
    0 ≤ DataSet.torsoUpSearch sampleFolder.skills 0 (-1) ∧
    0 ≤ sampleDataSet.torso_up_id :=
  ⟨(load_fails_iff_no_torso_up id noTorsoFolder).1.mpr (by decide),
   ((load_fails_iff_no_torso_up id sampleFolder).2 (by decide)).1,
   ((load_fails_iff_no_torso_up id sampleFolder).2 (by decide)).2 sampleDataSet rfl⟩

/-- Claim C6 as stated is false: armor 2 of the data set loaded from
`sampleFolder` carries the torso-up skill (and one more effect), yet
`ProvidesTorsoUp(2)` is false. -/
theorem ProvidesTorsoUp_counterexample :
    DataSet.load id sampleFolder = Except.ok sampleDataSet ∧
    ((sampleDataSet.armor 2).map
      (fun a => a.effects.any (fun e => decide (e.skill_id = sampleDataSet.torso_up_id)))) =
      some true ∧
    sampleDataSet.ProvidesTorsoUp 2 = some false :=
  ⟨rfl, by decide, by decide⟩

/-- Claim C6, amended: for every armor id in range, `ProvidesTorsoUp(id)`
returns, and it is true if and only if the armor has exactly one effect and
that effect has `skill_id == torso_up_id`; for a piece none of whose effects
has that skill id it is false. -/
theorem ProvidesTorsoUp_iff (ds : DataSet) (id : Nat) (a : Armor) (h : ds.armor id = some a) :
    (ds.ProvidesTorsoUp id = some true ∨ ds.ProvidesTorsoUp id = some false) ∧
    (ds.ProvidesTorsoUp id = some true ↔ ∃ e, a.effects = [e] ∧ e.skill_id = ds.torso_up_id) ∧
    ((∀ e ∈ a.effects, e.skill_id ≠ ds.torso_up_id) → ds.ProvidesTorsoUp id = some false) := by
  have ha : ds.armors_[id]? = some a := h
  unfold DataSet.ProvidesTorsoUp
  rw [ha]
  rcases heff : a.effects with _ | ⟨e, _ | ⟨e2, rest⟩⟩
  · simp [heff]
  · by_cases he : e.skill_id = ds.torso_up_id
    · simp [heff, he]
    · simp [heff, he]
  · simp [heff]

/-- Witness of C6, amended: armor 1 of the sample data set has the torso-up
effect as its only effect, and `ProvidesTorsoUp(1)` is true. -/
theorem ProvidesTorsoUp_iff_witness :
    sampleDataSet.armor 1 = some sampleTorsoVest ∧
    sampleDataSet.ProvidesTorsoUp 1 = some true :=
  ⟨by decide,
   (ProvidesTorsoUp_iff sampleDataSet 1 sampleTorsoVest (by decide)).2.1.mpr
     ⟨{ skill_id := 0, points := 0 }, rfl, by decide⟩⟩

/-- Claim C7: over the reals, for every effect with skill `s` and points `p`
and every catalog whose jewels all have `holes > 0`,
`EffectScore = exp (0.1 * J - 0.3 * p) * A`, where `A` counts the base armors
with at least one effect on `s` (each armor once) and `J` sums
`(f.points / j.holes) * exp (-0.1 * j.holes)` over every jewel `j` and every
effect `f` of `j` on `s`. The hypothesis on `holes` is the claim's: it keeps
the quotient where the real quotient reads the quotient of doubles. -/
theorem EffectScore_formula (ds : DataSet) (effect : Effect)
    (_hholes : ∀ j ∈ ds.jewels_, 0 < j.holes) :
    ds.EffectScore Real.exp effect =
      Real.exp (0.1 * specJewelIndex Real.exp ds effect.skill_id - 0.3 * (effect.points : ℝ)) *
        (specArmorCount ds effect.skill_id : ℝ) := by
  have hJ : ds.jewel_index Real.exp effect = specJewelIndex Real.exp ds effect.skill_id := by
    rw [DataSet.jewel_index_eq]
    unfold specJewelIndex
    congr 1
    apply List.map_congr_left
    intro j _
    congr 1
    apply List.map_congr_left
    intro f _
    congr 2
    push_cast
    ring
  have hA : ds.armor_count effect = (specArmorCount ds effect.skill_id : Int) := by
    rw [DataSet.armor_count_eq]
    unfold specArmorCount
    congr 2
    funext a
    by_cases h : ∃ f ∈ a.effects, f.skill_id = effect.skill_id
    · simp [h]
    · simpa [h] using fun x hx hxe => h ⟨x, hx, hxe⟩
  unfold DataSet.EffectScore
  rw [hJ, hA]
  simp

/-- Witness of C7: the formula on the sample data set, whose only jewel has
two holes, for an effect of 2 points on skill 1. -/
theorem EffectScore_formula_witness :
    (∀ j ∈ sampleDataSet.jewels_, 0 < j.holes) ∧
    sampleDataSet.EffectScore Real.exp { skill_id := 1, points := 2 } =
      Real.exp (0.1 * specJewelIndex Real.exp sampleDataSet 1 - 0.3 * ((2 : Int) : ℝ)) *
        (specArmorCount sampleDataSet 1 : ℝ) :=
  ⟨by decide, EffectScore_formula sampleDataSet { skill_id := 1, points := 2 } (by decide)⟩

/-- Claim C8: for every loaded data set, every effect and every sequence of
`AddExtraArmor` and `ClearExtraArmor` calls, `EffectScore` after the sequence
equals `EffectScore` before it (in every field `K` with any function in the
place of `exp`). -/
theorem EffectScore_run {K : Type} [DivisionRing K] (exp : K → K) (mv : Armor → Armor)
    (folder : DataFolder) (ds : DataSet) (h : DataSet.load mv folder = Except.ok ds)
    (calls : List DataSet.Call) (effect : Effect) :
    (ds.run calls).EffectScore exp effect = ds.EffectScore exp effect := by
  have fr := DataSet.Frame.of_load h calls
  have hj : (ds.run calls).jewel_index exp effect = ds.jewel_index exp effect := by
    unfold DataSet.jewel_index
    rw [fr.jewels]
  have ha : (ds.run calls).armor_count effect = ds.armor_count effect := by
    rw [DataSet.armor_count_eq, DataSet.armor_count_eq, fr.reserved, fr.base]
  unfold DataSet.EffectScore
  rw [hj, ha]

/-- Witness of C8: the sample data set, with an extra head piece that has an
effect on the scored skill added twice and cleared once in between. -/
theorem EffectScore_run_witness :
    DataSet.load id sampleFolder = Except.ok sampleDataSet ∧
    (sampleDataSet.run
      [DataSet.Call.add ArmorPart.HEAD (Armor.Amulet 1 [{ skill_id := 1, points := 5 }]),
       DataSet.Call.clear,
       DataSet.Call.add ArmorPart.HEAD (Armor.Amulet 1 [{ skill_id := 1, points := 5 }])]).EffectScore
        Real.exp { skill_id := 1, points := 2 } =
      sampleDataSet.EffectScore Real.exp { skill_id := 1, points := 2 } :=
  ⟨rfl, EffectScore_run Real.exp id sampleFolder sampleDataSet rfl _ _⟩

/-- Claim C9: after `UpdateSkillSystemLookUp(systems)`, `LookUpSkillSystem`
returns `-1` for every name that is the name of no system; for every index
`i` it returns an index `j` with `systems[j].name == systems[i].name`; and
when the names are pairwise distinct it returns `i` for `systems[i].name`. -/
theorem LookUpSkillSystem_after_update (systems : List SkillSystem) :
    (∀ name : String, (∀ s ∈ systems, s.name ≠ name) →
      LookUpSkillSystem (UpdateSkillSystemLookUp systems) name = -1) ∧
    (∀ (i : Nat) (hi : i < systems.length), ∃ (j : Nat) (hj : j < systems.length),
      LookUpSkillSystem (UpdateSkillSystemLookUp systems) systems[i].name = (j : Int) ∧
        systems[j].name = systems[i].name) ∧
    ((systems.map (fun s => s.name)).Nodup →
      ∀ (i : Nat) (hi : i < systems.length),
        LookUpSkillSystem (UpdateSkillSystemLookUp systems) systems[i].name = (i : Int)) := by
  have present : ∀ (i : Nat) (hi : i < systems.length), ∃ (j : Nat) (hj : j < systems.length),
      LookUpSkillSystem (UpdateSkillSystemLookUp systems) systems[i].name = (j : Int) ∧
        systems[j].name = systems[i].name := by
    intro i hi
    obtain ⟨j, s, hj, hs, hfind⟩ :=
      UpdateSkillSystemLookUp.loop_find_present systems[i].name systems 0 []
        ⟨systems[i], List.getElem_mem _, rfl⟩
    obtain ⟨hjlt, hjs⟩ := List.getElem?_eq_some_iff.mp hj
    refine ⟨j, hjlt, ?_, ?_⟩
    · simp only [LookUpSkillSystem, UpdateSkillSystemLookUp, hfind]
      simp
    · rw [hjs]; exact hs
  refine ⟨?_, present, ?_⟩
  · intro name h
    simp [LookUpSkillSystem, UpdateSkillSystemLookUp,
      UpdateSkillSystemLookUp.loop_find_absent name systems 0 [] h, SkillTable.find]
  · intro hnodup i hi
    obtain ⟨j, hj, hfind, hname⟩ := present i hi
    have hj2 : j < (systems.map (fun s => s.name)).length := by simpa using hj
    have hi2 : i < (systems.map (fun s => s.name)).length := by simpa using hi
    have hij : j = i := by
      apply (List.Nodup.getElem_inj_iff hnodup).mp
      show (systems.map (fun s => s.name))[j] = (systems.map (fun s => s.name))[i]
      simpa using hname
    rw [hfind, hij]

/-- Witness of C9: on the two sample systems an unknown name gives `-1` and
the name of system 1 gives `1`. -/
theorem LookUpSkillSystem_after_update_witness :
    LookUpSkillSystem (UpdateSkillSystemLookUp sampleSkills) "Fencing" = -1 ∧
    LookUpSkillSystem (UpdateSkillSystemLookUp sampleSkills) "Attack" = 1 :=
  ⟨(LookUpSkillSystem_after_update sampleSkills).1 "Fencing" (by decide),
   (LookUpSkillSystem_after_update sampleSkills).2.2 (by decide) 1 (by decide)⟩

/-- Claim C10: in every state reached from a loaded data set by a sequence of
`AddExtraArmor` and `ClearExtraArmor` calls, `ArmorIds(AMULET)` is not empty
and its first entry is the index of an existing armor with part `AMULET`,
defense 0, holes 0 and no effects. -/
theorem amulet_always_available (mv : Armor → Armor) (folder : DataFolder) (ds : DataSet)
    (h : DataSet.load mv folder = Except.ok ds) (calls : List DataSet.Call) :
    ∃ (i : Nat) (rest : List Nat) (a : Armor),
      (ds.run calls).ArmorIds ArmorPart.AMULET = i :: rest ∧
      i < (ds.run calls).armors.length ∧
      (ds.run calls).armor i = some a ∧
      a.part = ArmorPart.AMULET ∧ a.defense = 0 ∧ a.holes = 0 ∧ a.effects = [] := by
  have fr := DataSet.Frame.of_load h calls
  obtain ⟨hres, -, -, n, hids, hn⟩ := DataSet.load_ok h
  obtain ⟨hlt, -⟩ := List.getElem?_eq_some_iff.mp hn
  obtain ⟨added, hadded⟩ := fr.ids ArmorPart.AMULET
  have hnr : n < ds.reserved_armor_count_ := by omega
  have harm : (ds.run calls).armors_[n]? = some (Armor.Amulet 0 []) := by
    have h1 : ((ds.run calls).armors_.take ds.reserved_armor_count_)[n]? =
        (ds.armors_.take ds.reserved_armor_count_)[n]? := by rw [fr.base]
    rw [List.getElem?_take_of_lt hnr, List.getElem?_take_of_lt hnr] at h1
    rw [h1, hn]
  refine ⟨n, added, Armor.Amulet 0 [], ?_, ?_, harm, rfl, rfl, rfl, rfl⟩
  · show (ds.run calls).armor_indices_by_parts_ ArmorPart.AMULET = n :: added
    rw [hadded, hids]; rfl
  · have := fr.size
    show n < (ds.run calls).armors_.length
    omega

/-- Witness of C10: the sample data set after adding a piece to the amulet
slot, clearing, and adding a piece to the head slot. -/
theorem amulet_always_available_witness :
    DataSet.load id sampleFolder = Except.ok sampleDataSet ∧
    ∃ (i : Nat) (rest : List Nat) (a : Armor),
      (sampleDataSet.run
        [DataSet.Call.add ArmorPart.AMULET sampleExtraArmor, DataSet.Call.clear,
         DataSet.Call.add ArmorPart.HEAD sampleExtraArmor]).ArmorIds ArmorPart.AMULET =
        i :: rest ∧
      i < (sampleDataSet.run
        [DataSet.Call.add ArmorPart.AMULET sampleExtraArmor, DataSet.Call.clear,
         DataSet.Call.add ArmorPart.HEAD sampleExtraArmor]).armors.length ∧
      (sampleDataSet.run
        [DataSet.Call.add ArmorPart.AMULET sampleExtraArmor, DataSet.Call.clear,
         DataSet.Call.add ArmorPart.HEAD sampleExtraArmor]).armor i = some a ∧
      a.part = ArmorPart.AMULET ∧ a.defense = 0 ∧ a.holes = 0 ∧ a.effects = [] :=
  ⟨rfl, amulet_always_available id sampleFolder sampleDataSet rfl _⟩

/-! ## Grouping by part: lemmas -/

theorem DataSet.Grouped.nil : DataSet.Grouped [] (fun _ => []) :=
  ⟨fun p i => by simp, fun p => List.Pairwise.nil⟩

theorem DataSet.Grouped.lt {armors : List Armor} {ids : ArmorPart → List Nat}
    (g : DataSet.Grouped armors ids) {p : ArmorPart} {i : Nat} (h : i ∈ ids p) :
    i < armors.length := by
  obtain ⟨a, ha, -⟩ := (g.mem p i).mp h
  exact (List.getElem?_eq_some_iff.mp ha).1

theorem DataSet.Grouped.push {armors : List Armor} {ids : ArmorPart → List Nat}
    (g : DataSet.Grouped armors ids) (a : Armor) :
    DataSet.Grouped (armors ++ [a])
      (fun p => if p = a.part then ids p ++ [armors.length] else ids p) := by
  constructor
  · intro p i
    rcases Nat.lt_trichotomy i armors.length with hlt | heq | hgt
    · have hget : (armors ++ [a])[i]? = armors[i]? := List.getElem?_append_left hlt
      rw [hget, ← g.mem p i]
      by_cases hp : p = a.part
      · simp only [hp, if_true, List.mem_append, List.mem_singleton]
        constructor
        · rintro (h | h)
          · exact h
          · omega
        · intro h; exact Or.inl h
      · simp only [hp, if_false]
    · subst heq
      have hget : (armors ++ [a])[armors.length]? = some a := by simp
      rw [hget]
      by_cases hp : p = a.part
      · simp [hp]
      · simp only [hp, if_false]
        constructor
        · intro h; exact absurd (g.lt h) (Nat.lt_irrefl _)
        · rintro ⟨b, hb, hbp⟩
          injection hb with hb
          subst hb
          exact absurd hbp.symm hp
    · have hget : (armors ++ [a])[i]? = none := by
        apply List.getElem?_eq_none
        simp; omega
      rw [hget]
      by_cases hp : p = a.part
      · simp only [hp, if_true, List.mem_append, List.mem_singleton]
        constructor
        · rintro (h | h)
          · have := g.lt h; omega
          · omega
        · rintro ⟨b, hb, -⟩; cases hb
      · simp only [hp, if_false]
        constructor
        · intro h; have := g.lt h; omega
        · rintro ⟨b, hb, -⟩; cases hb
  · intro p
    by_cases hp : p = a.part
    · simp only [hp, if_true]
      rw [List.pairwise_append]
      refine ⟨g.increasing _, List.pairwise_singleton _ _, ?_⟩
      intro i hi j hj
      rw [List.mem_singleton] at hj
      subst hj
      exact g.lt hi
    · simp only [hp, if_false]
      exact g.increasing p

theorem DataSet.ReadArmors.push_grouped (Part : ArmorPart) :
    ∀ (l : List Armor) (ds : DataSet),
      DataSet.Grouped ds.armors_ ds.armor_indices_by_parts_ →
      DataSet.Grouped (l.foldl (DataSet.ReadArmors.push Part) ds).armors_
        (l.foldl (DataSet.ReadArmors.push Part) ds).armor_indices_by_parts_ := by
  intro l
  induction l with
  | nil => intro ds g; exact g
  | cons a rest ih =>
    intro ds g
    rw [List.foldl_cons]
    apply ih
    have key := g.push
      { a with
        part := Part
        type := if Part = ArmorPart.HEAD ∨ Part = ArmorPart.GEAR then WeaponType.BOTH else a.type }
    simpa [DataSet.ReadArmors.push] using key

theorem DataSet.ReadArmors_grouped {mv : Armor → Armor} {table : SkillTable} {Part : ArmorPart}
    {file : List ArmorFields} {ds ds1 : DataSet}
    (h : DataSet.ReadArmors mv table Part file ds = Except.ok ds1)
    (g : DataSet.Grouped ds.armors_ ds.armor_indices_by_parts_) :
    DataSet.Grouped ds1.armors_ ds1.armor_indices_by_parts_ := by
  unfold DataSet.ReadArmors at h
  split at h
  · cases h
  · injection h with h
    subst h
    exact DataSet.ReadArmors.push_grouped Part _ ds g

theorem DataSet.load_grouped {mv : Armor → Armor} {folder : DataFolder} {ds : DataSet}
    (h : DataSet.load mv folder = Except.ok ds) :
    DataSet.Grouped ds.armors_ ds.armor_indices_by_parts_ := by
  unfold DataSet.load at h
  simp only at h
  split at h
  · cases h
  split at h
  · cases h
  rename_i ds1 h1
  split at h
  · cases h
  rename_i ds2 h2
  split at h
  · cases h
  rename_i ds3 h3
  split at h
  · cases h
  rename_i ds4 h4
  split at h
  · cases h
  rename_i ds5 h5
  split at h
  · cases h
  rename_i ds6 h6
  injection h with h
  subst h
  have g6 : DataSet.Grouped ds6.armors_ ds6.armor_indices_by_parts_ :=
    DataSet.ReadArmors_grouped h6 (DataSet.ReadArmors_grouped h5 (DataSet.ReadArmors_grouped h4
      (DataSet.ReadArmors_grouped h3 (DataSet.ReadArmors_grouped h2
        (DataSet.ReadArmors_grouped h1 DataSet.Grouped.nil)))))
  have key := g6.push (Armor.Amulet 0 [])
  simpa [DataSet.LoadAmulet, Armor.Amulet] using key

/-- Claim C11: right after the load the lists of indices group the catalog by
part. Every index below `armors().size()` occurs in the list of the part
stored in that armor, exactly once, and in no other list; and every list is
in strictly increasing order. -/
theorem load_groups_armors_by_part (mv : Armor → Armor) (folder : DataFolder) (ds : DataSet)
    (h : DataSet.load mv folder = Except.ok ds) :
    (∀ i, i < ds.armors.length →
      ∃ a, ds.armor i = some a ∧ (ds.ArmorIds a.part).count i = 1 ∧
        ∀ q, q ≠ a.part → i ∉ ds.ArmorIds q) ∧
    (∀ p, (ds.ArmorIds p).Pairwise (fun i j => i < j)) := by
  have g := DataSet.load_grouped h
  refine ⟨?_, g.increasing⟩
  intro i hi
  have hi2 : i < ds.armors_.length := hi
  refine ⟨ds.armors_[i], List.getElem?_eq_getElem hi2, ?_, ?_⟩
  · have hmem : i ∈ ds.armor_indices_by_parts_ (ds.armors_[i]).part :=
      (g.mem _ i).mpr ⟨_, List.getElem?_eq_getElem hi2, rfl⟩
    have hnodup : (ds.armor_indices_by_parts_ (ds.armors_[i]).part).Nodup :=
      (g.increasing _).imp (fun hlt => Nat.ne_of_lt hlt)
    exact List.count_eq_one_of_mem hnodup hmem
  · intro q hq hmem
    obtain ⟨b, hb, hbq⟩ := (g.mem q i).mp hmem
    rw [List.getElem?_eq_getElem hi2] at hb
    injection hb with hb
    subst hb
    exact hq hbq.symm

/-- Witness of C11: the sample data set; its lists are `[0]` for `HEAD`,
`[1, 2]` for `BODY` and `[3]` for `AMULET`. -/
theorem load_groups_armors_by_part_witness :
    DataSet.load id sampleFolder = Except.ok sampleDataSet ∧
    (∀ i, i < sampleDataSet.armors.length →
      ∃ a, sampleDataSet.armor i = some a ∧ (sampleDataSet.ArmorIds a.part).count i = 1 ∧
        ∀ q, q ≠ a.part → i ∉ sampleDataSet.ArmorIds q) ∧
    (∀ p, (sampleDataSet.ArmorIds p).Pairwise (fun i j => i < j)) :=
  ⟨rfl, load_groups_armors_by_part id sampleFolder sampleDataSet rfl⟩

/-- Claim C12: `AddExtraArmor(p, a)` appends to the list of `p` only. After
the call `ArmorIds(p)` is the old list with one new last entry,
`armor(p, last)` is `a`, `ArmorIds(q)` is the old list for every other part
`q`, and every armor that existed is still at its index. -/
theorem AddExtraArmor_appends_to_part (ds : DataSet) (p : ArmorPart) (a : Armor) :
    (ds.AddExtraArmor p a).ArmorIds p = ds.ArmorIds p ++ [ds.armors.length] ∧
    (ds.AddExtraArmor p a).armorAt p (((ds.AddExtraArmor p a).ArmorIds p).length - 1) = some a ∧
    (∀ q, q ≠ p → (ds.AddExtraArmor p a).ArmorIds q = ds.ArmorIds q) ∧
    (∀ i b, ds.armor i = some b → (ds.AddExtraArmor p a).armor i = some b) := by
  refine ⟨?_, ?_, ?_, ?_⟩
  · simp [DataSet.ArmorIds, DataSet.AddExtraArmor, DataSet.armors]
  · simp [DataSet.ArmorIds, DataSet.AddExtraArmor, DataSet.armorAt]
  · intro q hq
    simp [DataSet.ArmorIds, DataSet.AddExtraArmor, hq]
  · intro i b hb
    have hb2 : ds.armors_[i]? = some b := hb
    have hlt : i < ds.armors_.length := (List.getElem?_eq_some_iff.mp hb2).1
    show (ds.armors_ ++ [a])[i]? = some b
    rw [List.getElem?_append_left hlt, hb2]

/-- Witness of C12: adding `sampleExtraArmor` to `HEAD` of the sample data
set leaves `ArmorIds(BODY)` and armor 1 as they were. -/
theorem AddExtraArmor_appends_to_part_witness :
    (sampleDataSet.AddExtraArmor ArmorPart.HEAD sampleExtraArmor).ArmorIds ArmorPart.BODY =
      sampleDataSet.ArmorIds ArmorPart.BODY ∧
    (sampleDataSet.AddExtraArmor ArmorPart.HEAD sampleExtraArmor).armor 1 =
      some sampleTorsoVest :=
  ⟨(AddExtraArmor_appends_to_part sampleDataSet ArmorPart.HEAD sampleExtraArmor).2.2.1
      ArmorPart.BODY (by decide),
   (AddExtraArmor_appends_to_part sampleDataSet ArmorPart.HEAD sampleExtraArmor).2.2.2
      1 sampleTorsoVest (by decide)⟩

/-- Claim C16 (fails on the code): the lists of indices do not stay within
`armors()` nor free of repetitions. From the sample data set (4 armors),
`AddExtraArmor(HEAD, a)` then `ClearExtraArmor()` leaves index 4 in
`ArmorIds(HEAD)` while `armors().size()` is 4 again, so `armor(HEAD, 1)` is
out of range; one more `AddExtraArmor(HEAD, a)` makes the list `[0, 4, 4]`. -/
theorem ArmorIds_out_of_range_and_repeated :
    DataSet.load id sampleFolder = Except.ok sampleDataSet ∧
    (sampleDataSet.run
      [DataSet.Call.add ArmorPart.HEAD sampleExtraArmor, DataSet.Call.clear]).ArmorIds
        ArmorPart.HEAD = [0, 4] ∧
    (sampleDataSet.run
      [DataSet.Call.add ArmorPart.HEAD sampleExtraArmor, DataSet.Call.clear]).armors.length = 4 ∧
    (sampleDataSet.run
      [DataSet.Call.add ArmorPart.HEAD sampleExtraArmor, DataSet.Call.clear]).armorAt
        ArmorPart.HEAD 1 = none ∧
    (sampleDataSet.run
      [DataSet.Call.add ArmorPart.HEAD sampleExtraArmor, DataSet.Call.clear,
       DataSet.Call.add ArmorPart.HEAD sampleExtraArmor]).ArmorIds ArmorPart.HEAD = [0, 4, 4] :=
  ⟨rfl, by decide, by decide, by decide, by decide⟩

/-- Claim C17 (fails on the code): `ReadArmors` does not drop every armor
without a name. A helm file with two entries without a name has no armor
with a name, yet one index is appended to `ArmorIds(HEAD)` and the armor it
names has the empty name. -/
theorem ReadArmors_registers_nameless_armor :
    (namelessFolder.helms.filter (fun f => f.name_detected && !f.name.isEmpty)).length = 0 ∧
    (DataSet.load id namelessFolder).toOption.map (fun ds => ds.ArmorIds ArmorPart.HEAD) =
      some [0] ∧
    (DataSet.load id namelessFolder).toOption.map
      (fun ds => (ds.armorAt ArmorPart.HEAD 0).map (fun a => a.name)) = some (some "") := by
  decide

/-! ## The tokenizer: lemmas -/

theorem Tokenizer.skipSpaces.loop_stops (cls : CharClass) :
    ∀ (ws : List Char) (c : Char) (rest : List Char) (buffer : Char) (stream : List Char),
      buffer :: stream = ws ++ c :: rest → (∀ w ∈ ws, isspace cls w = true) → isspace cls c = false →
      Tokenizer.skipSpaces.loop cls stream buffer false =
        { input_stream_ := rest, buffer_ := c, end_of_file_ := false } := by
  intro ws
  induction ws with
  | nil =>
    intro c rest buffer stream h _ hc
    simp only [List.nil_append, List.cons.injEq] at h
    obtain ⟨rfl, rfl⟩ := h
    unfold Tokenizer.skipSpaces.loop
    simp [hc]
  | cons w ws ih =>
    intro c rest buffer stream h hws hc
    simp only [List.cons_append, List.cons.injEq] at h
    obtain ⟨rfl, rfl⟩ := h
    have hb : isspace cls buffer = true := hws buffer (List.mem_cons_self _ _)
    have hrest : ∀ x ∈ ws, isspace cls x = true := fun x hx => hws x (List.mem_cons_of_mem _ hx)
    unfold Tokenizer.skipSpaces.loop
    cases ws with
    | nil =>
      simp only [hb, List.nil_append, Bool.not_false, Bool.and_self, if_true]
      exact ih c rest c rest rfl hrest hc
    | cons x xs =>
      simp only [hb, List.cons_append, Bool.not_false, Bool.and_self, if_true]
      exact ih c rest x (xs ++ c :: rest) rfl hrest hc

theorem Tokenizer.skipSpaces.loop_ends (cls : CharClass) :
    ∀ (stream : List Char) (buffer : Char),
      (∀ w ∈ buffer :: stream, isspace cls w = true) →
      (Tokenizer.skipSpaces.loop cls stream buffer false).end_of_file_ = true := by
  intro stream
  induction stream with
  | nil =>
    intro buffer h
    have hb : isspace cls buffer = true := h buffer (List.mem_cons_self _ _)
    unfold Tokenizer.skipSpaces.loop
    simp [hb]
  | cons x xs ih =>
    intro buffer h
    have hb : isspace cls buffer = true := h buffer (List.mem_cons_self _ _)
    unfold Tokenizer.skipSpaces.loop
    simp only [hb, Bool.not_false, Bool.and_self, if_true]
    exact ih x (fun w hw => h w (List.mem_cons_of_mem _ hw))

theorem Tokenizer.skipSpaces_of_unread {cls : CharClass} {t : Tokenizer} {ws : List Char}
    {c : Char}
    {rest : List Char} (h : t.unread = ws ++ c :: rest) (hws : ∀ w ∈ ws, isspace cls w = true)
    (hc : isspace cls c = false) :
    t.skipSpaces cls = { input_stream_ := rest, buffer_ := c, end_of_file_ := false } := by
  unfold Tokenizer.unread at h
  cases heof : t.end_of_file_ with
  | true => rw [heof] at h; simp at h
  | false =>
    rw [heof] at h
    simp only [Bool.false_eq_true, if_false] at h
    unfold Tokenizer.skipSpaces
    rw [heof]
    exact Tokenizer.skipSpaces.loop_stops cls ws c rest _ _ h hws hc

theorem Tokenizer.skipSpaces_of_blank {cls : CharClass} {t : Tokenizer}
    (h : ∀ c ∈ t.unread, isspace cls c = true) :
    (t.skipSpaces cls).end_of_file_ = true := by
  unfold Tokenizer.unread at h
  unfold Tokenizer.skipSpaces
  cases heof : t.end_of_file_ with
  | true =>
    unfold Tokenizer.skipSpaces.loop
    simp
  | false =>
    rw [heof] at h
    simp only [Bool.false_eq_true, if_false] at h
    exact Tokenizer.skipSpaces.loop_ends cls _ _ h

/-- Claim C13 (fails on the code): `Next` does not always return. On the text
`NO` a character that is not a blank remains unread, and the call neither
returns true with `INVALID_TOKEN` nor returns false: the `CHECK` in
`Read<NIL>` on the character after the `N` ends the process. The comment on
`Next` says that it returns true even if the token read is invalid. This
holds whatever the library says of the characters outside the basic
character set. -/
theorem Next_aborts_on_failed_check (cls : CharClass) :
    (Tokenizer.FromText ['N', 'O']).unread = ['N', 'O'] ∧
    (∃ c ∈ (Tokenizer.FromText ['N', 'O']).unread, isspace cls c = false) ∧
    (Tokenizer.FromText ['N', 'O']).Next cls Tokenizer.freshToken =
      Except.error Abort.checkFailed :=
  ⟨rfl, ⟨'N', by simp [Tokenizer.FromText, Tokenizer.GetChar, Tokenizer.unread], rfl⟩, rfl⟩

/-! ## String literals: lemmas -/

theorem quotesEscaped_of_positions :
    ∀ (body : List Char) (previous : Char),
      (∀ i, (previous :: body)[i + 1]? = some '"' → (previous :: body)[i]? = some '\\') →
      (previous :: body).getLast? ≠ some '\\' →
      quotesEscaped (decide (previous = '\\')) body := by
  intro body
  induction body with
  | nil =>
    intro previous _ hlast
    simp only [quotesEscaped, decide_eq_false_iff_not]
    intro hp
    exact hlast (by simp [hp])
  | cons c cs ih =>
    intro previous hq hlast
    refine ⟨?_, ?_⟩
    · intro hc
      have := hq 0 (by simp [hc])
      simpa using this
    · apply ih c
      · intro i hi
        have := hq (i + 1) (by simpa using hi)
        simpa using this
      · simpa [List.getLast?_cons_cons] using hlast

theorem Tokenizer.Read.STRING.loop_closes (rest : List Char) :
    ∀ (body : List Char) (buffer : Char) (escape : Bool) (value : String),
      quotesEscaped escape body →
      Tokenizer.Read.STRING.loop (body ++ '"' :: rest) buffer false escape value =
        ({ input_stream_ := rest, buffer_ := '"', end_of_file_ := false },
          String.mk (value.data ++ unescape body)) := by
  intro body
  induction body with
  | nil =>
    intro buffer escape value h
    have he : escape = false := h
    subst he
    unfold Tokenizer.Read.STRING.loop
    simp [unescape]
  | cons c cs ih =>
    intro buffer escape value h
    obtain ⟨hq, hrest⟩ := h
    unfold Tokenizer.Read.STRING.loop
    simp only [List.cons_append, Bool.false_eq_true, if_false]
    by_cases hc : c = '"'
    · subst hc
      have he := hq rfl
      subst he
      have hrest2 : quotesEscaped false cs := by simpa using hrest
      simp only [Bool.not_true, Bool.and_false, Bool.false_eq_true, if_false, if_true]
      rw [if_neg (by decide), ih _ _ _ hrest2]
      simp [unescape, String.push]
    · by_cases hb : c = '\\'
      · subst hb
        have hrest2 : quotesEscaped true cs := by simpa using hrest
        rw [if_neg (by simp), if_pos rfl, ih _ _ _ hrest2]
        simp [unescape]
      · have hrest2 : quotesEscaped false cs := by simpa [hb] using hrest
        rw [if_neg (by simp [hc]), if_neg hb, if_neg hc, ih _ _ _ hrest2]
        simp [unescape, String.push, hb, hc]

/-- The general part of the claim on string literals. -/
theorem Tokenizer.Next_string (cls : CharClass) {t : Tokenizer} (token : Token)
    {ws body rest : List Char}
    (h : t.unread = ws ++ '"' :: (body ++ '"' :: rest))
    (hws : ∀ w ∈ ws, isspace cls w = true)
    (hq : quotesEscaped false body) :
    ∃ t1, t.Next cls token =
        Except.ok (true, { name := TokenName.STRING, value := String.mk (unescape body) }, t1) ∧
      t1.unread = rest := by
  have hskip := Tokenizer.skipSpaces_of_unread h hws (show isspace cls '"' = false from rfl)
  refine ⟨Tokenizer.GetChar { input_stream_ := rest, buffer_ := '"', end_of_file_ := false },
    ?_, ?_⟩
  · unfold Tokenizer.Next
    simp only [hskip]
    simp [Tokenizer.Read.OPEN_PARENTHESIS, Tokenizer.Read.CLOSE_PARENTHESIS,
      Tokenizer.Read.KEYWORD, Tokenizer.Read.STRING,
      Tokenizer.Read.STRING.loop_closes rest body '"' false "" hq]
  · cases rest with
    | nil => simp [Tokenizer.GetChar, Tokenizer.unread]
    | cons x xs => simp [Tokenizer.GetChar, Tokenizer.unread]

theorem quotesEscaped_of_plain :
    ∀ (s : List Char), (∀ c ∈ s, c ≠ '"' ∧ c ≠ '\\') → quotesEscaped false s ∧ unescape s = s := by
  intro s
  induction s with
  | nil => intro _; exact ⟨rfl, rfl⟩
  | cons c cs ih =>
    intro h
    obtain ⟨hq, hb⟩ := h c (List.mem_cons_self _ _)
    obtain ⟨h1, h2⟩ := ih (fun x hx => h x (List.mem_cons_of_mem _ hx))
    refine ⟨⟨fun hc => absurd hc hq, by simpa [hb] using h1⟩, ?_⟩
    unfold unescape at h2 ⊢
    simp only [ne_eq, decide_not] at h2
    simp [hq, hb, h2]

/-- Claim C20: when the next token starts with `"` and a later double quote
is not directly preceded by a backslash, `Next` returns a `STRING` token;
the literal ends at the first such double quote (every double quote of
`body`, the text before it, directly follows a backslash), what remains
unread is the text after it, and the value is `body` with every backslash
removed and every double quote replaced by `|`. For a text `s` without double
quote and backslash, the literal `"s"` has the value `s`. This holds whatever
the library says of the characters outside the basic character set. -/
theorem Next_reads_string_literal (cls : CharClass) (token : Token) :
    (∀ (t : Tokenizer) (ws body rest : List Char),
      t.unread = ws ++ '"' :: (body ++ '"' :: rest) →
      (∀ w ∈ ws, isspace cls w = true) →
      (∀ i, ('"' :: body)[i + 1]? = some '"' → ('"' :: body)[i]? = some '\\') →
      ('"' :: body).getLast? ≠ some '\\' →
      ∃ t1, t.Next cls token =
          Except.ok (true, { name := TokenName.STRING, value := String.mk (unescape body) }, t1) ∧
        t1.unread = rest) ∧
    (∀ (s rest : List Char), (∀ c ∈ s, c ≠ '"' ∧ c ≠ '\\') →
      ∃ t1, (Tokenizer.FromText ('"' :: (s ++ '"' :: rest))).Next cls token =
          Except.ok (true, { name := TokenName.STRING, value := String.mk s }, t1) ∧
        t1.unread = rest) := by
  constructor
  · intro t ws body rest h hws hq hlast
    exact Tokenizer.Next_string cls token h hws (quotesEscaped_of_positions body '"' hq hlast)
  · intro s rest hs
    obtain ⟨hq, hu⟩ := quotesEscaped_of_plain s hs
    have key := Tokenizer.Next_string cls token
      (show (Tokenizer.FromText ('"' :: (s ++ '"' :: rest))).unread =
        [] ++ '"' :: (s ++ '"' :: rest) from rfl)
      (by simp) hq
    rw [hu] at key
    exact key

/-- Witness of C20: the text ` "a\"b\\c" x` gives the `STRING` token `a|bc`
and leaves ` x` unread; the text `"Attack"` gives the value `Attack`. -/
theorem Next_reads_string_literal_witness :
    (∃ t1, (Tokenizer.FromText
        [' ', '"', 'a', '\\', '"', 'b', '\\', '\\', 'c', '"', ' ', 'x']).Next basicClass
          Tokenizer.freshToken =
        Except.ok (true,
          { name := TokenName.STRING
            value := String.mk (unescape ['a', '\\', '"', 'b', '\\', '\\', 'c']) }, t1) ∧
      t1.unread = [' ', 'x']) ∧
    (∃ t1, (Tokenizer.FromText ('"' :: ("Attack".toList ++ '"' :: []))).Next basicClass
          Tokenizer.freshToken =
        Except.ok (true, { name := TokenName.STRING, value := String.mk "Attack".toList }, t1) ∧
      t1.unread = []) :=
  ⟨(Next_reads_string_literal basicClass Tokenizer.freshToken).1
      (Tokenizer.FromText [' ', '"', 'a', '\\', '"', 'b', '\\', '\\', 'c', '"', ' ', 'x'])
      [' '] ['a', '\\', '"', 'b', '\\', '\\', 'c'] [' ', 'x'] rfl (by decide)
      (by
        intro i hi
        have hi7 : i < 7 := by
          by_contra hge
          have : (['"', 'a', '\\', '"', 'b', '\\', '\\', 'c'] : List Char)[i + 1]? = none :=
            List.getElem?_eq_none (by simp; omega)
          rw [this] at hi
          cases hi
        interval_cases i <;> first | rfl | (exfalso; revert hi; decide))
      (by decide),
   (Next_reads_string_literal basicClass Tokenizer.freshToken).2 "Attack".toList [] (by decide)⟩

/-- Claim C18 (fails on the code): `Read` does not return the list of all the
numbers of `(n1 ... nk)`. `ReadObject` tests the name of its local token,
which is not assigned yet, where the cached token is meant. When that name
is not `INVALID_TOKEN` the cached token is dropped and the next one is read:
`(1 2)` gives the list of `2` alone and `(1 2 3)` ends on a failed `CHECK`.
When it is `INVALID_TOKEN`, `Read` ends on a failed `CHECK` at once. This
holds whatever the library says of the characters outside the basic
character set. -/
theorem Read_drops_cached_token (cls : CharClass) :
    LispObjectReader.Read cls (fun _ => TokenName.OPEN_PARENTHESIS) 20
        (Tokenizer.FromText ['(', '1', ' ', '2', ')']) =
      ReadResult.done (LispObject.List [LispObject.Number 2])
        { input_stream_ := [], buffer_ := ' ', end_of_file_ := true } ∧
    LispObjectReader.Read cls (fun _ => TokenName.OPEN_PARENTHESIS) 20
        (Tokenizer.FromText ['(', '1', ' ', '2', ' ', '3', ')']) =
      ReadResult.abort Abort.checkFailed ∧
    LispObjectReader.Read cls (fun _ => TokenName.INVALID_TOKEN) 20
        (Tokenizer.FromText ['(', '1', ' ', '2', ')']) =
      ReadResult.abort Abort.checkFailed := by
  have n1 : ∀ rest : List Char,
      (Tokenizer.mk ('1' :: rest) '(' false).Next cls (Token.mk TokenName.OPEN_PARENTHESIS "") =
        Except.ok (true, Token.mk TokenName.OPEN_PARENTHESIS "", Tokenizer.mk rest '1' false) :=
    fun _ => rfl
  have n2 : ∀ rest : List Char,
      (Tokenizer.mk (' ' :: rest) '1' false).Next cls (Token.mk TokenName.OPEN_PARENTHESIS "") =
        Except.ok (true, Token.mk TokenName.NUMBER "1", Tokenizer.mk rest ' ' false) :=
    fun _ => rfl
  have n3 : ∀ rest : List Char,
      (Tokenizer.mk ('2' :: ' ' :: rest) ' ' false).Next cls
          (Token.mk TokenName.OPEN_PARENTHESIS "") =
        Except.ok (true, Token.mk TokenName.NUMBER "2", Tokenizer.mk rest ' ' false) :=
    fun _ => rfl
  have n3c : (Tokenizer.mk ['2', ')'] ' ' false).Next cls
        (Token.mk TokenName.OPEN_PARENTHESIS "") =
      Except.ok (true, Token.mk TokenName.NUMBER "2", Tokenizer.mk [] ')' false) := rfl
  have n4 : (Tokenizer.mk [] ')' false).Next cls (Token.mk TokenName.NUMBER "1") =
      Except.ok (true, Token.mk TokenName.CLOSE_PARENTHESIS "", Tokenizer.mk [] ' ' true) :=
    rfl
  have n5 : (Tokenizer.mk ['3', ')'] ' ' false).Next cls (Token.mk TokenName.NUMBER "1") =
      Except.ok (true, Token.mk TokenName.NUMBER "3", Tokenizer.mk [] ')' false) := rfl
  have n6 : (Tokenizer.mk [] ')' false).Next cls (Token.mk TokenName.OPEN_PARENTHESIS "") =
      Except.ok (true, Token.mk TokenName.CLOSE_PARENTHESIS "", Tokenizer.mk [] ' ' true) :=
    rfl
  have s2 : stoi cls "2" = Except.ok 2 := rfl
  have t5 : Tokenizer.FromText ['(', '1', ' ', '2', ')'] =
    Tokenizer.mk ['1', ' ', '2', ')'] '(' false := rfl
  have t7 : Tokenizer.FromText ['(', '1', ' ', '2', ' ', '3', ')'] =
    Tokenizer.mk ['1', ' ', '2', ' ', '3', ')'] '(' false := rfl
  refine ⟨?_, ?_, ?_⟩
  · unfold LispObjectReader.Read
    rw [LispObjectReader.ReadObject, t5]
    simp only [n1, n2, reduceCtorEq, if_false, if_true]
    rw [LispObjectReader.ReadObject]
    simp only [n3c, s2, reduceCtorEq, if_false, if_true]
    rw [LispObjectReader.ReadObject.list]
    simp only [n4, reduceCtorEq, if_false, if_true, List.nil_append]
  · unfold LispObjectReader.Read
    rw [LispObjectReader.ReadObject, t7]
    simp only [n1, n2, reduceCtorEq, if_false, if_true]
    rw [LispObjectReader.ReadObject]
    simp only [n3, s2, reduceCtorEq, if_false, if_true]
    rw [LispObjectReader.ReadObject.list]
    simp only [n5, reduceCtorEq, if_false, if_true]
    rw [LispObjectReader.ReadObject]
    simp only [n6, reduceCtorEq, if_false, if_true]
  · rfl

/-- Claim C19 (fails on the code): a `NUMBER` token need not be an integer
literal. On the text `- 1` the first token is `NUMBER` with the value `-`,
which has no digit; `std::stoi` throws on it, so `ExpectNumber` ends the
process. This holds whatever the library says of the characters outside the
basic character set. -/
theorem Next_number_token_without_digit (cls : CharClass) :
    ((Tokenizer.FromText ['-', ' ', '1']).Next cls Tokenizer.freshToken).toOption.map
        (fun r => (r.1, r.2.1)) =
      some (true, { name := TokenName.NUMBER, value := "-" }) ∧
    stoi cls "-" = Except.error Abort.invalid_argument ∧
    (Tokenizer.FromText ['-', ' ', '1']).ExpectNumber cls =
      Except.error Abort.invalid_argument :=
  ⟨rfl, rfl, rfl⟩

/-- Claim C14: `main` needs a catalog location (with `argc < 2` it ends on the
failed `CHECK` before any call). With a catalog location and no query
location it builds `ArmorUp` from `argv[1]`, lists the skills and runs no
search. With a query location it parses `argv[2]` and, the parse accepted,
runs the search with `K = 10`; no search ever runs with another `K` or
without a query location. -/
theorem main_command_surface {Query : Type} (ParseFile : String → Option Query)
    (argv : List String) :
    (argv.length < 2 → find_armor.main ParseFile argv = ([], MainExit.aborted)) ∧
    (argv.length = 2 →
      find_armor.main ParseFile argv =
        ([MainCall.ArmorUp (argv.getD 1 ""), MainCall.ListSkills], MainExit.returned 0)) ∧
    (3 ≤ argv.length →
      (∃ calls, (find_armor.main ParseFile argv).1 =
        MainCall.ArmorUp (argv.getD 1 "") :: MainCall.ParseFile (argv.getD 2 "") :: calls) ∧
      ∀ query, ParseFile (argv.getD 2 "") = some query →
        find_armor.main ParseFile argv =
          ([MainCall.ArmorUp (argv.getD 1 ""), MainCall.ParseFile (argv.getD 2 ""),
            MainCall.SearchAndOutput query 10], MainExit.returned 0)) ∧
    (∀ query k, MainCall.SearchAndOutput query k ∈ (find_armor.main ParseFile argv).1 →
      k = 10 ∧ 3 ≤ argv.length) := by
  refine ⟨?_, ?_, ?_, ?_⟩
  · intro h
    unfold find_armor.main
    simp only [if_neg (Nat.not_le.mpr h)]
  · intro h
    unfold find_armor.main
    simp [h]
  · intro h
    have h2 : 2 ≤ argv.length := by omega
    have h3 : ¬ argv.length < 3 := by omega
    constructor
    · unfold find_armor.main
      simp only [h2, h3, if_true, if_false]
      cases ParseFile (argv.getD 2 "") with
      | none => exact ⟨[], rfl⟩
      | some query => exact ⟨[MainCall.SearchAndOutput query 10], rfl⟩
    · intro query hq
      unfold find_armor.main
      simp only [h2, h3, if_true, if_false, hq]
  · intro query k hmem
    unfold find_armor.main at hmem
    by_cases h2 : 2 ≤ argv.length
    · by_cases h3 : argv.length < 3
      · simp [h2, h3] at hmem
      · cases hp : ParseFile (argv.getD 2 "") with
        | none =>
          simp only [h2, h3, if_true, if_false, hp] at hmem
          simp at hmem
        | some q =>
          simp only [h2, h3, if_true, if_false, hp] at hmem
          simp at hmem
          exact ⟨hmem.2, by omega⟩
    · simp [h2] at hmem

/-- Witness of C14: without arguments `main` ends on the check; with a catalog
only it lists the skills; with a catalog and a query that parses it searches
with `K = 10`. -/
theorem main_command_surface_witness :
    find_armor.main (fun _ => some ()) ["find_armor"] = ([], MainExit.aborted) ∧
    find_armor.main (fun _ => some ()) ["find_armor", "data"] =
      ([MainCall.ArmorUp "data", MainCall.ListSkills], MainExit.returned 0) ∧
    find_armor.main (fun _ => some ()) ["find_armor", "data", "query.lisp"] =
      ([MainCall.ArmorUp "data", MainCall.ParseFile "query.lisp",
        MainCall.SearchAndOutput () 10], MainExit.returned 0) :=
  ⟨(main_command_surface (fun _ => some ()) ["find_armor"]).1 (by decide),
   (main_command_surface (fun _ => some ()) ["find_armor", "data"]).2.1 rfl,
   ((main_command_surface (fun _ => some ()) ["find_armor", "data", "query.lisp"]).2.2.1
      (by decide)).2 () rfl⟩

/-! ## The build search: lemmas -/

theorem Spec.cheapest_mem :
    ∀ (packings : List (List Jewel)) (best : List Jewel),
      Spec.cheapest packings = some best → best ∈ packings := by
  intro packings
  induction packings with
  | nil => intro best h; cases h
  | cons packing rest ih =>
    intro best h
    simp only [Spec.cheapest] at h
    cases hrest : Spec.cheapest rest with
    | none =>
      rw [hrest] at h
      injection h with h
      subst h
      exact List.mem_cons_self _ _
    | some other =>
      rw [hrest] at h
      simp only at h
      split at h
      · injection h with h
        subst h
        exact List.mem_cons_self _ _
      · injection h with h
        subst h
        exact List.mem_cons_of_mem _ (ih other hrest)

theorem Spec.Pack.search_cost (jewels : List Jewel) (Score : Int → Int) :
    ∀ (fuel : Nat) (needs : List (Int × Int)) (remaining : Int) (packing : List Jewel),
      0 ≤ remaining → Spec.Pack.search jewels Score fuel needs remaining = some packing →
      Spec.cost packing ≤ remaining := by
  intro fuel
  induction fuel with
  | zero =>
    intro needs remaining packing hcap h
    simp only [Spec.Pack.search] at h
    split at h
    · injection h with h
      subst h
      simpa [Spec.cost] using hcap
    · cases h
  | succ fuel ih =>
    intro needs remaining packing hcap h
    simp only [Spec.Pack.search] at h
    split at h
    · injection h with h
      subst h
      simpa [Spec.cost] using hcap
    · have hmem := Spec.cheapest_mem _ _ h
      rw [List.mem_filterMap] at hmem
      obtain ⟨j, hj, hmap⟩ := hmem
      rw [List.mem_filter] at hj
      obtain ⟨-, hfit⟩ := hj
      simp only [Bool.and_eq_true, decide_eq_true_eq] at hfit
      rw [Option.map_eq_some'] at hmap
      obtain ⟨rest, hrest, rfl⟩ := hmap
      have hle := ih _ _ rest (by omega) hrest
      simp only [Spec.cost, List.map_cons, List.sum_cons] at hle ⊢
      omega

theorem Spec.Pack_cost {jewels : List Jewel} {Score : Int → Int} {needs : List (Int × Int)}
    {cap : Int} {packing : List Jewel} (h : Spec.Pack jewels Score needs cap = some packing) :
    Spec.cost packing ≤ cap := by
  unfold Spec.Pack at h
  split at h
  · cases h
  · exact Spec.Pack.search_cost jewels Score _ _ _ _ (by omega) h

theorem Spec.Search.go_capacity (view : List Armor → ArmorPart → List Armor)
    (prune : List (Int × Int) → List Armor → List ArmorPart → Bool)
    (jewels : List Jewel) (Score : Int → Int) (requirements : List (Int × Int)) :
    ∀ (slots : List ArmorPart) (chosen : List Armor) (build : Spec.Build),
      build ∈ Spec.Search.go view prune jewels Score requirements slots chosen →
      Spec.cost build.jewels ≤ Spec.capacity build.pieces := by
  intro slots
  induction slots with
  | nil =>
    intro chosen build h
    simp only [Spec.Search.go] at h
    split at h
    · rename_i packing hpack
      rw [List.mem_singleton] at h
      subst h
      exact Spec.Pack_cost hpack
    · cases h
  | cons slot slots ih =>
    intro chosen build h
    simp only [Spec.Search.go, List.mem_flatMap] at h
    obtain ⟨piece, -, hpiece⟩ := h
    split at hpiece
    · cases hpiece
    · exact ih _ build hpiece

theorem Spec.Offer_mem {K : Nat} {held : List Spec.Build} {build b : Spec.Build}
    (h : b ∈ Spec.Offer K held build) : b = build ∨ b ∈ held := by
  unfold Spec.Offer at h
  have h2 := List.mem_of_mem_take h
  rw [List.mem_append, List.mem_cons] at h2
  rcases h2 with h2 | h2 | h2
  · exact Or.inr ((List.takeWhile_sublist _).subset h2)
  · exact Or.inl h2
  · exact Or.inr ((List.dropWhile_sublist _).subset h2)

theorem Spec.foldl_Offer_mem {K : Nat} :
    ∀ (offered held : List Spec.Build) (b : Spec.Build),
      b ∈ offered.foldl (Spec.Offer K) held → b ∈ offered ∨ b ∈ held := by
  intro offered
  induction offered with
  | nil => intro held b h; exact Or.inr h
  | cons build rest ih =>
    intro held b h
    rw [List.foldl_cons] at h
    rcases ih _ b h with h1 | h1
    · exact Or.inl (List.mem_cons_of_mem _ h1)
    · rcases Spec.Offer_mem h1 with h2 | h2
      · exact Or.inl (h2 ▸ List.mem_cons_self _ _)
      · exact Or.inr h2

/-- Claim C15: for every catalog and query, every build that the search
returns has a total accessory socket cost at most the sum of the socket
capacities of its chosen pieces. Proved on the search modelled from the spec,
for every view of the catalog, pruning bound, slot order, scorer and `K`. -/
theorem Search_capacity_invariant (view : List Armor → ArmorPart → List Armor)
    (prune : List (Int × Int) → List Armor → List ArmorPart → Bool)
    (order : List ArmorPart) (jewels : List Jewel) (Score : Int → Int)
    (requirements : List (Int × Int)) (K : Nat) (build : Spec.Build)
    (h : build ∈ Spec.Search view prune order jewels Score requirements K) :
    Spec.cost build.jewels ≤ Spec.capacity build.pieces := by
  unfold Spec.Search at h
  rcases Spec.foldl_Offer_mem _ _ build h with h1 | h1
  · exact Spec.Search.go_capacity view prune jewels Score requirements order [] build h1
  · cases h1

/-- Witness of C15: on the sample data set, 6 points of skill 1 need the helm
(2 points, 1 socket), the second cuirass (3 points, 1 socket) and the jewel
(3 points, 2 sockets); that build is returned, with cost 2 and capacity 2. -/
theorem Search_capacity_invariant_witness :
    sampleBuild ∈ Spec.Search sampleView (fun _ _ _ => false)
      [ArmorPart.HEAD, ArmorPart.BODY, ArmorPart.AMULET] sampleDataSet.jewels_ (fun _ => 0)
      [(1, 6)] 3 ∧
    Spec.cost sampleBuild.jewels ≤ Spec.capacity sampleBuild.pieces :=
  ⟨by decide,
   Search_capacity_invariant sampleView (fun _ _ _ => false)
     [ArmorPart.HEAD, ArmorPart.BODY, ArmorPart.AMULET] sampleDataSet.jewels_ (fun _ => 0)
     [(1, 6)] 3 sampleBuild (by decide)⟩

/-! ## Decimal numbers: lemmas -/

theorem digitChar_isdigit (d : Nat) (h : d < 10) :
    basicDigit (Nat.digitChar d) = true ∧ digitValue (Nat.digitChar d) = d := by
  interval_cases d <;> exact ⟨by decide, by decide⟩

theorem basicDigit_basic {c : Char} (h : basicDigit c = true) : c.toNat < 128 := by
  simp only [basicDigit, Bool.and_eq_true, decide_eq_true_eq] at h
  have h9 : '9'.toNat = 57 := rfl
  omega

theorem basicSpace_of_basicDigit {c : Char} (h : basicDigit c = true) :
    basicSpace c = false := by
  cases hs : basicSpace c with
  | false => rfl
  | true =>
    exfalso
    simp only [basicSpace, Bool.or_eq_true, decide_eq_true_eq] at hs
    rcases hs with ((((rfl | rfl) | rfl) | rfl) | rfl) | rfl <;> revert h <;> decide

/-- The ten decimal digits are digits and no blanks, whatever the library says
of the characters outside the basic character set. -/
theorem isdigit_of_basicDigit (cls : CharClass) {c : Char} (h : basicDigit c = true) :
    isdigit cls c = true ∧ isspace cls c = false ∧ iswspace cls c = false := by
  have hb := basicDigit_basic h
  simp [isdigit, isspace, iswspace, hb, h, basicSpace_of_basicDigit h]

theorem toDigitsCore_spec :
    ∀ (fuel n : Nat) (ds : List Char), n < fuel →
      ∃ l : List Char, Nat.toDigitsCore 10 fuel n ds = l ++ ds ∧ l ≠ [] ∧
        (∀ c ∈ l, basicDigit c = true) ∧ l.foldl (fun m c => 10 * m + digitValue c) 0 = n := by
  intro fuel
  induction fuel with
  | zero => intro n ds h; omega
  | succ fuel ih =>
    intro n ds h
    have hd := digitChar_isdigit (n % 10) (Nat.mod_lt _ (by decide))
    by_cases hq : n / 10 = 0
    · refine ⟨[Nat.digitChar (n % 10)], ?_, by simp, ?_, ?_⟩
      · simp [Nat.toDigitsCore, hq]
      · intro c hc
        rw [List.mem_singleton] at hc
        rw [hc]; exact hd.1
      · simp only [List.foldl_cons, List.foldl_nil, hd.2]
        omega
    · obtain ⟨l, hl, -, hdig, hval⟩ := ih (n / 10) (Nat.digitChar (n % 10) :: ds) (by omega)
      refine ⟨l ++ [Nat.digitChar (n % 10)], ?_, by simp, ?_, ?_⟩
      · simp [Nat.toDigitsCore, hq, hl]
      · intro c hc
        rw [List.mem_append, List.mem_singleton] at hc
        rcases hc with hc | hc
        · exact hdig c hc
        · rw [hc]; exact hd.1
      · rw [List.foldl_append, hval]
        simp only [List.foldl_cons, List.foldl_nil, hd.2]
        omega

theorem toDigits_spec (n : Nat) :
    ∃ (first : Char) (ds : List Char), Nat.toDigits 10 n = first :: ds ∧
      basicDigit first = true ∧ (∀ c ∈ ds, basicDigit c = true) ∧
      (first :: ds).foldl (fun m c => 10 * m + digitValue c) 0 = n := by
  obtain ⟨l, hl, hne, hdig, hval⟩ := toDigitsCore_spec (n + 1) n [] (Nat.lt_succ_self n)
  rw [List.append_nil] at hl
  cases l with
  | nil => exact absurd rfl hne
  | cons first ds =>
    exact ⟨first, ds, hl, hdig first (List.mem_cons_self _ _),
      fun c hc => hdig c (List.mem_cons_of_mem _ hc), hval⟩

theorem toString_int_toList (x : Int) :
    (toString x).toList =
      if x < 0 then '-' :: Nat.toDigits 10 x.natAbs else Nat.toDigits 10 x.natAbs := by
  cases x with
  | ofNat m =>
    have h : ¬ (Int.ofNat m < 0) := by simp
    rw [if_neg h]
    rfl
  | negSucc m =>
    have h : Int.negSucc m < 0 := Int.negSucc_lt_zero m
    rw [if_pos h]
    rfl

theorem stoi_digits (cls : CharClass) (first : Char) (ds : List Char)
    (hfirst : basicDigit first = true) (hds : ∀ c ∈ ds, basicDigit c = true) :
    stoi cls (String.mk (first :: ds)) =
      (if (2147483647 : Int) <
          (((first :: ds).foldl (fun m c => 10 * m + digitValue c) 0 : Nat) : Int) then
        Except.error Abort.out_of_range
      else Except.ok (((first :: ds).foldl (fun m c => 10 * m + digitValue c) 0 : Nat) : Int)) ∧
    stoi cls (String.mk ('-' :: first :: ds)) =
      (if -(((first :: ds).foldl (fun m c => 10 * m + digitValue c) 0 : Nat) : Int) <
          (-2147483648 : Int) then
        Except.error Abort.out_of_range
      else
        Except.ok (-(((first :: ds).foldl (fun m c => 10 * m + digitValue c) 0 : Nat) : Int))) := by
  have hsp : iswspace cls first = false := (isdigit_of_basicDigit cls hfirst).2.2
  have hm : first ≠ '-' := by intro h; rw [h] at hfirst; revert hfirst; decide
  have hp : first ≠ '+' := by intro h; rw [h] at hfirst; revert hfirst; decide
  have hall : ∀ c ∈ first :: ds, basicDigit c = true := by
    intro c hc
    rcases List.mem_cons.mp hc with rfl | hc
    · exact hfirst
    · exact hds c hc
  have htake : (first :: ds).takeWhile basicDigit = first :: ds :=
    List.takeWhile_eq_self_iff.mpr hall
  constructor
  · unfold stoi
    simp only [String.toList, List.dropWhile_cons, hsp, Bool.false_eq_true, if_false,
      List.head?_cons, Option.some.injEq, hm, hp, or_self, htake, decide_False]
    simp only [reduceCtorEq, if_false]
    split
    · rename_i h
      rcases h with h | h
      · omega
      · rw [if_pos h]
    · rename_i h
      rw [if_neg (fun h2 => h (Or.inr h2))]
  · unfold stoi
    have hsm : iswspace cls '-' = false := rfl
    simp only [String.toList, List.dropWhile_cons, hsm, Bool.false_eq_true, if_false,
      List.head?_cons, true_or, if_true, List.tail_cons, htake, decide_True]
    simp only [reduceCtorEq, if_false]
    split
    · rename_i h
      rcases h with h | h
      · rw [if_pos h]
      · omega
    · rename_i h
      rw [if_neg (fun h2 => h (Or.inl h2))]

theorem toString_int_spec (cls : CharClass) (x : Int) (hlo : -2147483648 ≤ x)
    (hhi : x ≤ 2147483647) :
    ∃ (first : Char) (ds : List Char), (toString x).toList = first :: ds ∧
      (basicDigit first || decide (first = '-')) = true ∧ (∀ c ∈ ds, basicDigit c = true) ∧
      stoi cls (String.mk (first :: ds)) = Except.ok x := by
  obtain ⟨first, ds, hdig, hfirst, hds, hval⟩ := toDigits_spec x.natAbs
  obtain ⟨h1, h2⟩ := stoi_digits cls first ds hfirst hds
  rw [hval] at h1 h2
  rw [toString_int_toList, hdig]
  by_cases hx : x < 0
  · rw [if_pos hx]
    refine ⟨'-', first :: ds, rfl, by decide, ?_, ?_⟩
    · intro c hc
      rcases List.mem_cons.mp hc with rfl | hc
      · exact hfirst
      · exact hds c hc
    · rw [h2, if_neg (by omega)]
      congr 1
      omega
  · rw [if_neg hx]
    refine ⟨first, ds, rfl, by simp [hfirst], hds, ?_⟩
    rw [h1, if_neg (by omega)]
    congr 1
    omega

/-! ## Number tokens and `ParseList<int>`: lemmas -/

theorem Tokenizer.Read.NUMBER.loop_digits (cls : CharClass) (c : Char) (rest : List Char)
    (eof : Bool) (hc : isdigit cls c = false) :
    ∀ (ds : List Char) (buffer : Char) (value : String), (∀ d ∈ ds, isdigit cls d = true) →
      Tokenizer.Read.NUMBER.loop cls (ds ++ c :: rest) buffer eof value =
        ({ input_stream_ := rest, buffer_ := c, end_of_file_ := eof },
          String.mk (value.data ++ buffer :: ds)) := by
  intro ds
  induction ds with
  | nil =>
    intro buffer value _
    simp [Tokenizer.Read.NUMBER.loop, hc, String.push]
  | cons d ds ih =>
    intro buffer value h
    have hd : isdigit cls d = true := h d (List.mem_cons_self _ _)
    have key := ih d (value.push buffer) (fun x hx => h x (List.mem_cons_of_mem _ hx))
    simp only [List.cons_append, Tokenizer.Read.NUMBER.loop, hd, if_true]
    exact key.trans (by simp [String.push])

theorem Tokenizer.Next_number (cls : CharClass) {t : Tokenizer} (token : Token)
    {ws ds rest : List Char}
    {first c : Char} (h : t.unread = ws ++ first :: (ds ++ c :: rest))
    (hws : ∀ w ∈ ws, isspace cls w = true)
    (hfirst : (basicDigit first || decide (first = '-')) = true)
    (hds : ∀ d ∈ ds, basicDigit d = true) (hc : isdigit cls c = false) :
    t.Next cls token =
      Except.ok (true, { name := TokenName.NUMBER, value := String.mk (first :: ds) },
        { input_stream_ := rest, buffer_ := c, end_of_file_ := false }) := by
  have hsp : isspace cls first = false := by
    cases hd : basicDigit first with
    | true => exact (isdigit_of_basicDigit cls hd).2.1
    | false =>
      rw [hd] at hfirst
      simp only [Bool.false_or, decide_eq_true_eq] at hfirst
      rw [hfirst]; rfl
  have hds2 : ∀ d ∈ ds, isdigit cls d = true :=
    fun d hd => (isdigit_of_basicDigit cls (hds d hd)).1
  have hne : ∀ x ∈ ['(', ')', ':', '"', 'T'], first ≠ x := by
    intro x hx hfx
    rw [hfx] at hfirst
    simp only [List.mem_cons, List.mem_singleton, List.not_mem_nil, or_false] at hx
    rcases hx with rfl | rfl | rfl | rfl | rfl <;> revert hfirst <;> decide
  have hskip := Tokenizer.skipSpaces_of_unread h hws hsp
  unfold Tokenizer.Next
  simp only [hskip]
  simp [Tokenizer.Read.OPEN_PARENTHESIS, Tokenizer.Read.CLOSE_PARENTHESIS,
    Tokenizer.Read.KEYWORD, Tokenizer.Read.STRING, Tokenizer.Read.TRUE, Tokenizer.Read.NUMBER,
    hne '(' (by simp), hne ')' (by simp), hne ':' (by simp), hne '"' (by simp),
    hne 'T' (by simp), Tokenizer.Read.NUMBER.loop_digits cls c rest false hc ds first "" hds2]
  have hor : isdigit cls first = true ∨ first = '-' := by
    cases hd : basicDigit first with
    | true => exact Or.inl (isdigit_of_basicDigit cls hd).1
    | false =>
      rw [hd] at hfirst
      simp only [Bool.false_or, decide_eq_true_eq] at hfirst
      exact Or.inr hfirst
  rw [if_pos hor]

theorem intListText.rest_head (cls : CharClass) (xs : List Int) :
    ∃ c rest, intListText.rest xs = c :: rest ∧ isdigit cls c = false ∧
      isspace cls c = (xs ≠ []) := by
  cases xs with
  | nil => exact ⟨')', [], rfl, rfl, by simp [isspace, basicSpace]⟩
  | cons x xs => exact ⟨' ', _, rfl, rfl, by simp [isspace, basicSpace]⟩

theorem intListText.rest_length (xs : List Int) : xs.length < (intListText.rest xs).length := by
  induction xs with
  | nil => simp [intListText.rest]
  | cons x xs ih =>
    simp only [intListText.rest, List.length_cons, List.length_append]
    omega

theorem ParseList.int.loop_rest (cls : CharClass) :
    ∀ (xs : List Int), (∀ x ∈ xs, -2147483648 ≤ x ∧ x ≤ 2147483647) →
      ∀ (fuel : Nat) (t : Tokenizer) (token : Token) (result : List Int),
        xs.length < fuel → t.unread = intListText.rest xs →
        ∃ t1, ParseList.int.loop cls fuel t token result = ReadResult.done (result ++ xs) t1 ∧
          t1.unread = [] := by
  intro xs
  induction xs with
  | nil =>
    intro _ fuel t token result hfuel h
    obtain ⟨fuel, rfl⟩ : ∃ k, fuel = k + 1 := ⟨fuel - 1, by simp at hfuel; omega⟩
    have hskip := @Tokenizer.skipSpaces_of_unread cls t [] ')' [] h (by simp) rfl
    refine ⟨{ input_stream_ := [], buffer_ := ' ', end_of_file_ := true }, ?_, rfl⟩
    simp only [ParseList.int.loop, Tokenizer.Next, hskip]
    simp [Tokenizer.Read.OPEN_PARENTHESIS, Tokenizer.Read.CLOSE_PARENTHESIS, Tokenizer.GetChar]
  | cons x xs ih =>
    intro hrange fuel t token result hfuel h
    obtain ⟨fuel, rfl⟩ : ∃ k, fuel = k + 1 := ⟨fuel - 1, by simp at hfuel; omega⟩
    obtain ⟨hlo, hhi⟩ := hrange x (List.mem_cons_self _ _)
    obtain ⟨first, ds, htext, hfirst, hds, hstoi⟩ := toString_int_spec cls x hlo hhi
    obtain ⟨c, rest, hrest, hc, -⟩ := intListText.rest_head cls xs
    have hun : t.unread = [' '] ++ first :: (ds ++ c :: rest) := by
      rw [h, intListText.rest, htext, hrest]
      simp
    have hnext := Tokenizer.Next_number cls token hun (by simp [isspace, basicSpace]) hfirst
      hds hc
    have hloop := ih (fun y hy => hrange y (List.mem_cons_of_mem _ hy)) fuel
      { input_stream_ := rest, buffer_ := c, end_of_file_ := false }
      { name := TokenName.NUMBER, value := String.mk (first :: ds) } (result ++ [x])
      (by simp at hfuel; omega) (by simp [Tokenizer.unread, hrest])
    obtain ⟨t1, ht1, hun1⟩ := hloop
    refine ⟨t1, ?_, hun1⟩
    simp only [ParseList.int.loop, hnext, hstoi, ht1]
    simp

theorem intercalate_go_data (s : String) :
    ∀ (rest : List String) (acc : String),
      (String.intercalate.go acc s rest).data =
        acc.data ++ rest.flatMap (fun a => s.data ++ a.data) := by
  intro rest
  induction rest with
  | nil => intro acc; simp [String.intercalate.go]
  | cons a rest ih =>
    intro acc
    simp [String.intercalate.go, ih, String.data_append]

theorem intListText.rest_eq (xs : List Int) :
    intListText.rest xs =
      (xs.map toString).flatMap (fun a => " ".data ++ a.data) ++ [')'] := by
  induction xs with
  | nil => rfl
  | cons x xs ih =>
    simp only [intListText.rest, ih, List.map_cons, List.flatMap_cons]
    simp [String.toList]

theorem intListText_cons (x : Int) (xs : List Int) :
    intListText (x :: xs) = '(' :: ((toString x).toList ++ intListText.rest xs) := by
  rw [intListText.rest_eq]
  simp [intListText, String.intercalate, intercalate_go_data, String.toList,
    String.data_append]

theorem ParseList.int.loop_item (cls : CharClass) (xs : List Int)
    (hxs : ∀ y ∈ xs, -2147483648 ≤ y ∧ y ≤ 2147483647) (x : Int) (hlo : -2147483648 ≤ x)
    (hhi : x ≤ 2147483647) (fuel : Nat) (t : Tokenizer) (token : Token) (result : List Int)
    (hfuel : xs.length + 1 < fuel) (h : t.unread = (toString x).toList ++ intListText.rest xs) :
    ∃ t1, ParseList.int.loop cls fuel t token result = ReadResult.done (result ++ x :: xs) t1 ∧
      t1.unread = [] := by
  obtain ⟨fuel, rfl⟩ : ∃ k, fuel = k + 1 := ⟨fuel - 1, by omega⟩
  obtain ⟨first, ds, htext, hfirst, hds, hstoi⟩ := toString_int_spec cls x hlo hhi
  obtain ⟨c, rest, hrest, hc, -⟩ := intListText.rest_head cls xs
  have hun : t.unread = [] ++ first :: (ds ++ c :: rest) := by
    rw [h, htext, hrest]
    simp
  have hnext := Tokenizer.Next_number cls token hun (by simp) hfirst hds hc
  obtain ⟨t1, ht1, hun1⟩ := ParseList.int.loop_rest cls xs hxs fuel
    { input_stream_ := rest, buffer_ := c, end_of_file_ := false }
    { name := TokenName.NUMBER, value := String.mk (first :: ds) } (result ++ [x])
    (by omega) (by simp [Tokenizer.unread, hrest])
  refine ⟨t1, ?_, hun1⟩
  simp only [ParseList.int.loop, hnext, hstoi, ht1]
  simp

theorem Tokenizer.skipSpaces.loop_unread (cls : CharClass) :
    ∀ (stream : List Char) (buffer : Char) (eof : Bool),
      (Tokenizer.skipSpaces.loop cls stream buffer eof).unread.length ≤
        (Tokenizer.unread
          { input_stream_ := stream, buffer_ := buffer, end_of_file_ := eof }).length := by
  intro stream
  induction stream with
  | nil =>
    intro buffer eof
    unfold Tokenizer.skipSpaces.loop
    split
    · simp [Tokenizer.unread]
    · exact Nat.le_refl _
  | cons x xs ih =>
    intro buffer eof
    unfold Tokenizer.skipSpaces.loop
    split
    · rename_i hcond
      have heof : eof = false := by
        cases eof with
        | false => rfl
        | true => simp at hcond
      subst heof
      have := ih x false
      simp only [Tokenizer.unread, Bool.false_eq_true, if_false, List.length_cons] at this ⊢
      omega
    · exact Nat.le_refl _

theorem Tokenizer.Read.NUMBER.loop_reads (cls : CharClass) :
    ∀ (stream : List Char) (buffer : Char) (eof : Bool) (value : String),
      (Tokenizer.Read.NUMBER.loop cls stream buffer eof value).1.unread.length ≤
        stream.length := by
  intro stream
  induction stream with
  | nil =>
    intro buffer eof value
    simp [Tokenizer.Read.NUMBER.loop, Tokenizer.unread]
  | cons x xs ih =>
    intro buffer eof value
    simp only [Tokenizer.Read.NUMBER.loop]
    split
    · have := ih x eof (value.push buffer)
      simp only [List.length_cons]
      omega
    · simp only [Tokenizer.unread]
      split <;> simp

/-- A call of `Next` that returns a `NUMBER` token has read at least one
character. -/
theorem Tokenizer.Next_number_reads {cls : CharClass} {t t1 : Tokenizer}
    {token result : Token} (h : t.Next cls token = Except.ok (true, result, t1))
    (hname : result.name = TokenName.NUMBER) :
    t1.unread.length < t.unread.length := by
  have hskip : (t.skipSpaces cls).unread.length ≤ t.unread.length :=
    Tokenizer.skipSpaces.loop_unread cls t.input_stream_ t.buffer_ t.end_of_file_
  unfold Tokenizer.Next at h
  simp only at h
  split at h
  · rename_i heof
    have heof2 : (t.skipSpaces cls).end_of_file_ = false := by simpa using heof
    have hlen : (t.skipSpaces cls).unread.length =
        (t.skipSpaces cls).input_stream_.length + 1 := by
      simp [Tokenizer.unread, heof2]
    split at h
    · rename_i r hr
      simp only [Tokenizer.Read.OPEN_PARENTHESIS] at hr
      split at hr
      · injection hr with hr; injection h with h; rw [← hr] at h
        simp only [Prod.mk.injEq] at h
        rw [← h.2.1] at hname; cases hname
      · cases hr
    split at h
    · rename_i r hr
      simp only [Tokenizer.Read.CLOSE_PARENTHESIS] at hr
      split at hr
      · injection hr with hr; injection h with h; rw [← hr] at h
        simp only [Prod.mk.injEq] at h
        rw [← h.2.1] at hname; cases hname
      · cases hr
    split at h
    · rename_i r hr
      simp only [Tokenizer.Read.KEYWORD] at hr
      split at hr
      · injection hr with hr; injection h with h; rw [← hr] at h
        simp only [Prod.mk.injEq] at h
        rw [← h.2.1] at hname; cases hname
      · cases hr
    split at h
    · rename_i r hr
      simp only [Tokenizer.Read.STRING] at hr
      split at hr
      · injection hr with hr; injection h with h; rw [← hr] at h
        simp only [Prod.mk.injEq] at h
        rw [← h.2.1] at hname; cases hname
      · cases hr
    split at h
    · rename_i r hr
      simp only [Tokenizer.Read.TRUE] at hr
      split at hr
      · injection hr with hr; injection h with h; rw [← hr] at h
        simp only [Prod.mk.injEq] at h
        rw [← h.2.1] at hname; cases hname
      · cases hr
    split at h
    · rename_i r hr
      simp only [Tokenizer.Read.NUMBER] at hr
      split at hr
      · injection hr with hr; injection h with h; rw [← hr] at h
        simp only [Prod.mk.injEq] at h
        rw [← h.2.2]
        have := Tokenizer.Read.NUMBER.loop_reads cls (t.skipSpaces cls).input_stream_
          (t.skipSpaces cls).buffer_ (t.skipSpaces cls).end_of_file_ ""
        omega
      · cases hr
    split at h
    · cases h
    · rename_i r hr
      simp only [Tokenizer.Read.NIL] at hr
      split at hr
      · split at hr
        · split at hr
          · injection hr with hr; injection hr with hr; injection h with h; rw [← hr] at h
            simp only [Prod.mk.injEq] at h
            rw [← h.2.1] at hname; cases hname
          · cases hr
        · cases hr
      · cases hr
    · injection h with h
      simp only [Prod.mk.injEq] at h
      rw [← h.2.1] at hname; cases hname
  · injection h with h
    simp only [Prod.mk.injEq] at h
    cases h.1

/-- The bound on the rounds in `ParseList<int>::Do` is never reached. -/
theorem ParseList.int.loop_fuel (cls : CharClass) :
    ∀ (fuel : Nat) (t : Tokenizer) (token : Token) (result : List Int),
      t.unread.length < fuel →
      ParseList.int.loop cls fuel t token result ≠ ReadResult.outOfFuel := by
  intro fuel
  induction fuel with
  | zero => intro t token result h; omega
  | succ fuel ih =>
    intro t token result h
    simp only [ParseList.int.loop]
    split
    · intro hh; cases hh
    · intro hh; cases hh
    · rename_i token1 t1 hnext
      split
      · intro hh; cases hh
      · rename_i hname
        split
        · intro hh; cases hh
        · have := Tokenizer.Next_number_reads hnext hname
          exact ih _ _ _ (by omega)
      · intro hh; cases hh

/-- Claim C21: for every list `xs` of ints (32 bits), `ParseList<int>::Do` on
the text `(`, the decimal representations of `xs` separated by blanks, `)`
returns exactly `xs`, in order, with nothing left unread (the empty list for
`()`); on the text `NIL` it returns the empty list. This holds whatever the
library says of the characters outside the basic character set. -/
theorem ParseList_int_round_trip (cls : CharClass) (xs : List Int)
    (h : ∀ x ∈ xs, -2147483648 ≤ x ∧ x ≤ 2147483647) :
    (∃ t1, ParseList.int.Do cls (Tokenizer.FromText (intListText xs)) true =
        ReadResult.done xs t1 ∧ t1.unread = []) ∧
    (∃ t1, ParseList.int.Do cls (Tokenizer.FromText ['N', 'I', 'L']) true =
        ReadResult.done [] t1 ∧ t1.unread = []) := by
  refine ⟨?_, ⟨_, rfl, rfl⟩⟩
  cases xs with
  | nil => exact ⟨_, rfl, rfl⟩
  | cons x xs =>
    obtain ⟨hlo, hhi⟩ := h x (List.mem_cons_self _ _)
    have hxs : ∀ y ∈ xs, -2147483648 ≤ y ∧ y ≤ 2147483647 :=
      fun y hy => h y (List.mem_cons_of_mem _ hy)
    obtain ⟨first, ds, htext, -, -, -⟩ := toString_int_spec cls x hlo hhi
    have hopen : (Tokenizer.FromText (intListText (x :: xs))).ExpectOpenParenOrNil cls =
        Except.ok (TokenName.OPEN_PARENTHESIS,
          { input_stream_ := ds ++ intListText.rest xs, buffer_ := first,
            end_of_file_ := false }) := by
      have hun : (Tokenizer.FromText (intListText (x :: xs))).unread =
          [] ++ '(' :: (first :: (ds ++ intListText.rest xs)) := by
        rw [intListText_cons, htext]
        rfl
      have hskip := @Tokenizer.skipSpaces_of_unread cls _ _ _ _ hun (by simp) rfl
      simp only [Tokenizer.ExpectOpenParenOrNil, Tokenizer.Next, hskip]
      simp [Tokenizer.Read.OPEN_PARENTHESIS, Tokenizer.GetChar]
    have hlen := intListText.rest_length xs
    obtain ⟨t1, ht1, hun1⟩ := ParseList.int.loop_item cls xs hxs x hlo hhi
      ((first :: (ds ++ intListText.rest xs)).length + 1)
      { input_stream_ := ds ++ intListText.rest xs, buffer_ := first, end_of_file_ := false }
      Tokenizer.freshToken []
      (by simp only [List.length_cons, List.length_append]; omega)
      (by rw [htext]; simp [Tokenizer.unread])
    refine ⟨t1, ?_, hun1⟩
    simp only [ParseList.int.Do, if_true, hopen]
    rw [if_neg (by decide)]
    simpa [Tokenizer.unread] using ht1

/-- Witness of C21: the text `(1 -2 30 0 2147483647 -2147483648)` gives back
the six numbers. -/
theorem ParseList_int_round_trip_witness :
    String.mk (intListText [1, -2, 30, 0, 2147483647, -2147483648]) =
      "(1 -2 30 0 2147483647 -2147483648)" ∧
    ∃ t1, ParseList.int.Do basicClass
        (Tokenizer.FromText (intListText [1, -2, 30, 0, 2147483647, -2147483648])) true =
        ReadResult.done [1, -2, 30, 0, 2147483647, -2147483648] t1 ∧ t1.unread = [] :=
  ⟨by decide,
   (ParseList_int_round_trip basicClass [1, -2, 30, 0, 2147483647, -2147483648]
     (by decide)).1⟩

theorem Tokenizer.Next_invalid (cls : CharClass) (rest : List Char) (c : Char) (token : Token)
    (hc : c ∉ ['(', ')', ':', '"', 'T', 'N', '-']) (hd : isdigit cls c = false) :
    Tokenizer.Next cls { input_stream_ := rest, buffer_ := c, end_of_file_ := false } token =
      Except.ok (true, { token with name := TokenName.INVALID_TOKEN },
        { input_stream_ := rest, buffer_ := c, end_of_file_ := false }) ∨
    isspace cls c = true := by
  cases hsp : isspace cls c with
  | true => exact Or.inr rfl
  | false =>
    left
    simp only [List.mem_cons, List.mem_singleton, List.not_mem_nil, or_false, not_or] at hc
    obtain ⟨h1, h2, h3, h4, h5, h6, h7⟩ := hc
    have hskip : Tokenizer.skipSpaces cls
        { input_stream_ := rest, buffer_ := c, end_of_file_ := false } =
        { input_stream_ := rest, buffer_ := c, end_of_file_ := false } :=
      @Tokenizer.skipSpaces_of_unread cls _ [] c rest rfl (by simp) hsp
    unfold Tokenizer.Next
    simp only [hskip]
    simp [Tokenizer.Read.OPEN_PARENTHESIS, Tokenizer.Read.CLOSE_PARENTHESIS,
      Tokenizer.Read.KEYWORD, Tokenizer.Read.STRING, Tokenizer.Read.TRUE,
      Tokenizer.Read.NUMBER, Tokenizer.Read.NIL, h1, h2, h3, h4, h5, h6, h7, hd]

/-- Claim C22: when the next character that is not a blank is none of `(`,
`)`, `:`, `"`, `T`, `N`, `-` and no digit, `Next` returns true with the name
`INVALID_TOKEN` (the value of the token is left as it was) and does not
consume that character: it and all that follows remain unread. A further
call returns the same and leaves the tokenizer exactly as it is, so the
call number `n + 1` returns `INVALID_TOKEN` for every `n`. Blank and digit
are what `std::isspace` and `std::isdigit` answer: on a character outside the
basic character set that is the answer `cls` of the library in use, whatever
it is, so a character that the library takes for a blank is skipped and one
that it takes for a digit starts a `NUMBER`. -/
theorem Next_invalid_token_stays (cls : CharClass) (t : Tokenizer) (token : Token)
    (ws : List Char) (c : Char) (rest : List Char) (h : t.unread = ws ++ c :: rest)
    (hws : ∀ w ∈ ws, isspace cls w = true) (hsp : isspace cls c = false)
    (hc : c ∉ ['(', ')', ':', '"', 'T', 'N', '-']) (hd : isdigit cls c = false) :
    ∃ t1, t.Next cls token =
        Except.ok (true, { token with name := TokenName.INVALID_TOKEN }, t1) ∧
      t1.unread = c :: rest ∧
      (∀ token1, t1.Next cls token1 =
        Except.ok (true, { token1 with name := TokenName.INVALID_TOKEN }, t1)) ∧
      (∀ n, t.NextAgain cls n token =
        Except.ok (true, { token with name := TokenName.INVALID_TOKEN }, t1)) := by
  have hfix : ∀ token1, Tokenizer.Next cls
      { input_stream_ := rest, buffer_ := c, end_of_file_ := false } token1 =
      Except.ok (true, { token1 with name := TokenName.INVALID_TOKEN },
        { input_stream_ := rest, buffer_ := c, end_of_file_ := false }) := by
    intro token1
    rcases Tokenizer.Next_invalid cls rest c token1 hc hd with h1 | h1
    · exact h1
    · rw [hsp] at h1; cases h1
  have hskip := Tokenizer.skipSpaces_of_unread h hws hsp
  have hskip2 : Tokenizer.skipSpaces cls
      { input_stream_ := rest, buffer_ := c, end_of_file_ := false } =
      { input_stream_ := rest, buffer_ := c, end_of_file_ := false } :=
    @Tokenizer.skipSpaces_of_unread cls _ [] c rest rfl (by simp) hsp
  have hfirst : t.Next cls token =
      Except.ok (true, { token with name := TokenName.INVALID_TOKEN },
        { input_stream_ := rest, buffer_ := c, end_of_file_ := false }) := by
    have key := hfix token
    unfold Tokenizer.Next at key ⊢
    rw [hskip2] at key
    rw [hskip]
    exact key
  refine ⟨_, hfirst, rfl, hfix, ?_⟩
  intro n
  induction n with
  | zero => exact hfirst
  | succ n ih =>
    have hagain : ∀ m, Tokenizer.NextAgain cls m
        { input_stream_ := rest, buffer_ := c, end_of_file_ := false }
        { token with name := TokenName.INVALID_TOKEN } =
        Except.ok (true, { token with name := TokenName.INVALID_TOKEN },
          { input_stream_ := rest, buffer_ := c, end_of_file_ := false }) := by
      intro m
      induction m with
      | zero => exact hfix _
      | succ m ihm =>
        simp only [Tokenizer.NextAgain, hfix]
        exact ihm
    simp only [Tokenizer.NextAgain, hfirst]
    exact hagain n

/-- Witness of C22: on the text ` x)` every call of `Next` returns
`INVALID_TOKEN`, and `x)` stays unread. -/
theorem Next_invalid_token_stays_witness :
    ∃ t1, (Tokenizer.FromText [' ', 'x', ')']).Next basicClass Tokenizer.freshToken =
        Except.ok (true, { Tokenizer.freshToken with name := TokenName.INVALID_TOKEN }, t1) ∧
      t1.unread = ['x', ')'] ∧
      (∀ token1, t1.Next basicClass token1 =
        Except.ok (true, { token1 with name := TokenName.INVALID_TOKEN }, t1)) ∧
      (∀ n, (Tokenizer.FromText [' ', 'x', ')']).NextAgain basicClass n Tokenizer.freshToken =
        Except.ok (true, { Tokenizer.freshToken with name := TokenName.INVALID_TOKEN }, t1)) :=
  Next_invalid_token_stays basicClass (Tokenizer.FromText [' ', 'x', ')']) Tokenizer.freshToken
    [' '] 'x' [')'] rfl (by decide) (by decide) (by decide) (by decide)

end MonsterAvengers
